import Mathlib

/-!
# Verification of the `jsonParser.ts` validation engine

A shallow embedding of `src/languageservice/parser/jsonParser.ts` (the
structural JSON/YAML validator) together with theorems checking the
natural-language specification against it.

Modelling conventions:
* JavaScript numbers are modelled as `ℚ` (the concrete documents and schemas
  exercised here use small integers, which IEEE-754 doubles represent
  exactly, so `ℚ` is faithful on every input appearing in a theorem).
* The mutable `ValidationResult` is threaded in state-passing style: each
  function takes the accumulator and returns the updated one.
* A `SchemaCollector` is represented by the data that determines its
  behaviour (`noop` vs `recording focusOffset exclude`); the records a call
  pushes into a collector are returned as an explicit list.
* JavaScript exceptions are modelled with `Except`: the engine can throw a
  `TypeError` (undefined field access) or a regex `SyntaxError`
  (`new RegExp` on an invalid pattern).  Since the recursion of `validate`
  is not structural, the embedding uses explicit fuel; running out of fuel
  is a third, artificial `Except` outcome that concrete runs never hit.
* External collaborators (the ECMAScript regex engine, `Uri.parse`, the
  two precompiled format regexes) are parameters (`Externals`).
-/

namespace JsonParser

/-- Source span of an AST node: `offset`/`length` as in `IRange`. -/
structure Span where
  offset : Nat
  length : Nat
deriving DecidableEq, Repr

/-- The plain data values produced by `Json.getNodeValue` (jsonc-parser):
`null`, booleans, numbers, strings, arrays, objects.  Objects are
association lists in JavaScript insertion order (first assignment wins the
position, last assignment wins the value). -/
inductive JValue where
  | null : JValue
  | bool : Bool → JValue
  | num : ℚ → JValue
  | str : String → JValue
  | arr : List JValue → JValue
  | obj : List (String × JValue) → JValue
deriving Repr

/-- AST nodes (the `*ASTNodeImpl` classes).  The `parent` back-reference of
the source is not stored; instead the engine threads the parent's data down
(see `ParentInfo`).  A property node's `keyNode` (a string node) is stored
flattened as `keySpan`/`key`; `colonOffset` is irrelevant to validation and
omitted. -/
inductive Node where
  | nullN (span : Span)
  | boolN (span : Span) (value : Bool)
  | numN (span : Span) (value : ℚ) (isInteger : Bool)
  | strN (span : Span) (value : String)
  | arrN (span : Span) (items : List Node)
  | objN (span : Span) (properties : List Node)
  | propN (span : Span) (keySpan : Span) (key : String) (valueNode : Option Node)
deriving Repr

namespace Node

/-- The node's source span. -/
def span : Node → Span
  | nullN s => s
  | boolN s _ => s
  | numN s _ _ => s
  | strN s _ => s
  | arrN s _ => s
  | objN s _ => s
  | propN s _ _ _ => s

/-- `node.type` as the string used by `matchesType`. -/
def typeName : Node → String
  | nullN _ => "null"
  | boolN _ _ => "boolean"
  | numN _ _ _ => "number"
  | strN _ _ => "string"
  | arrN _ _ => "array"
  | objN _ _ => "object"
  | propN _ _ _ _ => "property"

/-- The `children` getter: arrays yield their items, objects their
properties, properties their key node followed by the value node (when
present), and leaves yield nothing. -/
def children : Node → List Node
  | nullN _ | boolN _ _ | numN _ _ _ | strN _ _ => []
  | arrN _ items => items
  | objN _ props => props
  | propN _ ks k v => Node.strN ks k :: v.toList

end Node

/-! ## `Json.getNodeValue` (jsonc-parser collaborator)

Maps a node to its plain data value: arrays map their children, objects
assign `obj[key] = value` for each property that has a value node (last
assignment wins the value, the first one the position), scalars return
their `value`.  A property node itself has no value (the engine never asks
for one: `validate` returns early on property nodes). -/

/-- JavaScript object assignment `obj[k] = v` on an association list:
overwrite in place if the key exists, else append. -/
def jsAssign (k : String) (v : JValue) : List (String × JValue) → List (String × JValue)
  | [] => [(k, v)]
  | (k', v') :: rest =>
    if k' = k then (k', v) :: rest else (k', v') :: jsAssign k v rest

mutual

def getNodeValue : Node → JValue
  | .nullN _ => .null
  | .boolN _ b => .bool b
  | .numN _ v _ => .num v
  | .strN _ s => .str s
  | .arrN _ items => .arr (getNodeValueList items)
  | .objN _ props => .obj (getNodeValueObj props)
  | .propN _ _ _ _ => .null

def getNodeValueList : List Node → List JValue
  | [] => []
  | n :: rest => getNodeValue n :: getNodeValueList rest

def getNodeValueObj : List Node → List (String × JValue)
  | [] => []
  | .propN _ _ k (some v) :: rest => jsAssign k (getNodeValue v) (getNodeValueObj rest)
  | _ :: rest => getNodeValueObj rest

end

/-! ## Deep structural equality

Modelled from the spec: the helper `equals` lives in `../utils/objects`,
outside the validator source; the spec describes it as a total,
order-sensitive structural equality over
`{null, bool, number, string, array, object}` — scalars by value, arrays
element-wise in order, objects by the same (sorted) key set and key-wise
equal values. -/

/-- Insertion of a string into a sorted list (ascending). -/
def insertStr (s : String) : List String → List String
  | [] => [s]
  | x :: xs => if s ≤ x then s :: x :: xs else x :: insertStr s xs

/-- Sort a list of strings ascending (JavaScript `Array.prototype.sort`
default order; only list *equality* after sorting matters here, so any
total order is equivalent). -/
def sortStrs (l : List String) : List String := l.foldr insertStr []

/-- Association-list lookup (JavaScript `one[key]` on a plain object). -/
def jsLookup (k : String) : List (String × JValue) → Option JValue
  | [] => none
  | (k', v) :: rest => if k' = k then some v else jsLookup k rest

mutual

/-- Modelled from the spec: deep equality `equals` (see section header). -/
def deepEquals : JValue → JValue → Bool
  | .null, .null => true
  | .bool a, .bool b => a = b
  | .num a, .num b => a = b
  | .str a, .str b => a = b
  | .arr xs, .arr ys => deepEqualsList xs ys
  | .obj xs, .obj ys =>
    sortStrs (xs.map Prod.fst) = sortStrs (ys.map Prod.fst) && deepEqualsObj xs ys
  | _, _ => false

/-- Arrays: equal lengths and element-wise equal, in order. -/
def deepEqualsList : List JValue → List JValue → Bool
  | [], [] => true
  | x :: xs, y :: ys => deepEquals x y && deepEqualsList xs ys
  | _, _ => false

/-- Objects: every key of the first maps to an equal value in the second
(the key *sets* are already known equal by the sorted-keys check). -/
def deepEqualsObj : List (String × JValue) → List (String × JValue) → Bool
  | [], _ => true
  | (k, v) :: rest, ys =>
    (match jsLookup k ys with
     | some w => deepEquals v w
     | none => false) && deepEqualsObj rest ys

end

/-! ## Strict equality on freshly built values (`uniqueItems`)

`_validateArrayNode` detects duplicates with
`values.some((value, index) => index !== values.lastIndexOf(value))`.
`Array.prototype.lastIndexOf` uses JavaScript *strict* equality.  The
`values` array comes from `getNodeValue`, which allocates a fresh object or
array per element, so two elements are strictly equal iff they are the same
index, or both are primitives (`null`/boolean/number/string) of equal
value. -/

/-- Strict equality between two *distinct* fresh elements: true only for
equal primitives (fresh arrays/objects are never the same reference). -/
def jsPrimEq : JValue → JValue → Bool
  | .null, .null => true
  | .bool a, .bool b => a = b
  | .num a, .num b => a = b
  | .str a, .str b => a = b
  | _, _ => false

/-- Index-based strict equality inside the fresh `values` array:
reference equality holds exactly at the same index, value equality for
primitives. -/
def strictEqAt (values : List JValue) (i j : Nat) : Bool :=
  i = j || jsPrimEq (values.getD i .null) (values.getD j .null)

/-- `values.lastIndexOf(values[i])`: scan from the end for the greatest
strictly-equal index; `-1` when none (unreachable for `i` in range, since
`values[i]` finds itself). -/
def jsLastIndexOfAux (values : List JValue) (i : Nat) : Nat → Int
  | 0 => -1
  | k + 1 => if strictEqAt values i k then (k : Int) else jsLastIndexOfAux values i k

def jsLastIndexOf (values : List JValue) (i : Nat) : Int :=
  jsLastIndexOfAux values i values.length

/-- `values.some((value, index) => index !== values.lastIndexOf(value))`. -/
def hasDuplicates (values : List JValue) : Bool :=
  (List.range values.length).any fun i => (i : Int) ≠ jsLastIndexOf values i

/-! ## Schemas

`JSONSchemaRef = JSONSchema | boolean`.  The recognized fields of a schema
object, with the runtime type tests the engine performs
(`isNumber`/`isBoolean`/`isString`/`Array.isArray`/`typeof x === 'object'`)
reflected in the field types: a field the engine tests for several shapes
is a sum.  `SchemaCore` is parametric so that the knot can be tied through
a nested inductive (`JSchema`); a `Bool ⊕ S` is a `JSONSchemaRef`. -/
structure SchemaCore (S : Type) where
  type : Option (String ⊕ List String) := none
  enum : Option (List JValue) := none
  const : Option JValue := none
  errorMessage : Option String := none
  patternErrorMessage : Option String := none
  deprecationMessage : Option String := none
  allOf : Option (List (Bool ⊕ S)) := none
  anyOf : Option (List (Bool ⊕ S)) := none
  oneOf : Option (List (Bool ⊕ S)) := none
  notS : Option (Bool ⊕ S) := none
  ifS : Option (Bool ⊕ S) := none
  thenS : Option (Bool ⊕ S) := none
  elseS : Option (Bool ⊕ S) := none
  multipleOf : Option ℚ := none
  minimum : Option ℚ := none
  maximum : Option ℚ := none
  exclusiveMinimum : Option (Bool ⊕ ℚ) := none
  exclusiveMaximum : Option (Bool ⊕ ℚ) := none
  minLength : Option ℚ := none
  maxLength : Option ℚ := none
  pattern : Option String := none
  format : Option String := none
  items : Option (List (Bool ⊕ S) ⊕ (Bool ⊕ S)) := none
  additionalItems : Option (Bool ⊕ S) := none
  contains : Option (Bool ⊕ S) := none
  minItems : Option ℚ := none
  maxItems : Option ℚ := none
  uniqueItems : Option Bool := none
  required : Option (List String) := none
  properties : Option (List (String × (Bool ⊕ S))) := none
  patternProperties : Option (List (String × (Bool ⊕ S))) := none
  additionalProperties : Option (Bool ⊕ S) := none
  minProperties : Option ℚ := none
  maxProperties : Option ℚ := none
  dependencies : Option (List (String × (List String ⊕ (Bool ⊕ S)))) := none
  propertyNames : Option (Bool ⊕ S) := none

/-- A schema object (`JSONSchema`). -/
inductive JSchema where
  | mk : SchemaCore JSchema → JSchema

/-- A `JSONSchemaRef`: boolean or schema object. -/
abbrev SchemaRef := Bool ⊕ JSchema

/-- Field access on a schema object. -/
def JSchema.core : JSchema → SchemaCore JSchema
  | .mk c => c

/-- `asSchema`: `true ↦ {}`, `false ↦ {not: {}}`, objects pass through. -/
def asSchema : SchemaRef → JSchema
  | .inl true => .mk {}
  | .inl false => .mk { notS := some (.inl true) }
  | .inr s => s

/-- `asSchema` applied under `Option` (`asSchema(undefined)` is
`undefined`). -/
def asSchemaOpt (r : Option SchemaRef) : Option JSchema := r.map asSchema

/-! ## Diagnostics -/

/-- `DiagnosticSeverity`.  The engine only ever emits `warning`. -/
inductive Severity where
  | error | warning | info | hint
deriving DecidableEq, Repr

/-- `ErrorCode`: the only code the engine attaches. -/
inductive ECode where
  | enumValueMismatch
deriving DecidableEq, Repr

/-- URI-format failure detail (the `errorMessage` local of the
`uri`/`uri-reference` branch). -/
inductive UriErr where
  | uriEmpty
  | uriSchemeMissing
  | parseFailure (message : String)
deriving DecidableEq, Repr

/-- Diagnostic messages, structurally: one constructor per `localize` call
site, carrying the interpolated arguments; `custom` is an
`errorMessage`/`patternErrorMessage`/`deprecationMessage` string from the
schema. -/
inductive Message where
  | custom (s : String)
  | typeArrayMismatch (types : List String)
  | typeMismatch (type : String)
  | notSchemaWarning
  | oneOfWarning
  | enumWarning (values : List JValue)
  | constWarning (value : JValue)
  | multipleOfWarning (m : ℚ)
  | exclusiveMinimumWarning (m : ℚ)
  | exclusiveMaximumWarning (m : ℚ)
  | minimumWarning (m : ℚ)
  | maximumWarning (m : ℚ)
  | minLengthWarning (m : ℚ)
  | maxLengthWarning (m : ℚ)
  | patternWarning (pattern : String)
  | uriFormatWarning (detail : UriErr)
  | emailFormatWarning
  | colorHexFormatWarning
  | additionalItemsWarning (n : Nat)
  | requiredItemMissingWarning
  | minItemsWarning (m : ℚ)
  | maxItemsWarning (m : ℚ)
  | uniqueItemsWarning
  | missingRequiredPropWarning (name : String)
  | disallowedExtraPropWarning (name : String)
  | maxPropWarning (m : ℚ)
  | minPropWarning (m : ℚ)
  | requiredDependentPropWarning (requiredProp dependingProp : String)
deriving Repr

/-- `IProblem`. -/
structure Problem where
  location : Span
  severity : Severity
  code : Option ECode := none
  message : Message
deriving Repr

/-- `schema.errorMessage || default` — a falsy (empty) string falls
through to the default message. -/
def overrideMsg (override : Option String) (default : Message) : Message :=
  match override with
  | some s => if s = "" then default else .custom s
  | none => default

/-- `schema.patternErrorMessage || schema.errorMessage || default`. -/
def overrideMsg2 (first second : Option String) (default : Message) : Message :=
  overrideMsg first (overrideMsg second default)

/-! ## ValidationResult -/

/-- The mutable `ValidationResult` accumulator. -/
structure VR where
  problems : List Problem := []
  propertiesMatches : Nat := 0
  propertiesValueMatches : Nat := 0
  primaryValueMatches : Nat := 0
  enumValueMatch : Bool := false
  enumValues : Option (List JValue) := none
deriving Repr

namespace VR

/-- `hasProblems()`. -/
def hasProblems (a : VR) : Bool := !a.problems.isEmpty

/-- `merge(other)`: append the other's problems. -/
def merge (a b : VR) : VR := { a with problems := a.problems ++ b.problems }

/-- Append one problem (`problems.push(...)`). -/
def push (a : VR) (p : Problem) : VR := { a with problems := a.problems ++ [p] }

/-- `mergeEnumValues(other)`: when both sides failed enum matching and both
carry `enumValues`, concatenate the lists and rewrite the message of every
`EnumValueMismatch` problem to list the union. -/
def mergeEnumValues (a b : VR) : VR :=
  if !a.enumValueMatch && !b.enumValueMatch && a.enumValues.isSome && b.enumValues.isSome then
    let merged := a.enumValues.getD [] ++ b.enumValues.getD []
    { a with
      enumValues := some merged
      problems := a.problems.map fun p =>
        if p.code = some .enumValueMismatch then { p with message := .enumWarning merged }
        else p }
  else a

/-- `mergePropertyMatch(child)`. -/
def mergePropertyMatch (a child : VR) : VR :=
  let a := a.merge child
  let a := { a with propertiesMatches := a.propertiesMatches + 1 }
  let a :=
    if child.enumValueMatch || (!child.hasProblems && child.propertiesMatches ≠ 0) then
      { a with propertiesValueMatches := a.propertiesValueMatches + 1 }
    else a
  if child.enumValueMatch && child.enumValues.isSome && (child.enumValues.getD []).length = 1 then
    { a with primaryValueMatches := a.primaryValueMatches + 1 }
  else a

/-- `compare(other)`: lexicographic on has-problems, `enumValueMatch`,
`primaryValueMatches`, `propertiesValueMatches`, `propertiesMatches`. -/
def compare (a b : VR) : Int :=
  if a.hasProblems ≠ b.hasProblems then
    if a.hasProblems then -1 else 1
  else if a.enumValueMatch ≠ b.enumValueMatch then
    if b.enumValueMatch then -1 else 1
  else if a.primaryValueMatches ≠ b.primaryValueMatches then
    (a.primaryValueMatches : Int) - b.primaryValueMatches
  else if a.propertiesValueMatches ≠ b.propertiesValueMatches then
    (a.propertiesValueMatches : Int) - b.propertiesValueMatches
  else
    (a.propertiesMatches : Int) - b.propertiesMatches

end VR

/-! ## Schema collectors -/

mutual

/-- Structural equality of nodes (used to model the collector's
`node !== this.exclude` test; the `exclude` argument of
`getMatchingSchemas` is a node of the same document, where structural and
reference equality of this immutable tree coincide for the purposes of the
claims below). -/
def Node.beq : Node → Node → Bool
  | .nullN s, .nullN s' => s = s'
  | .boolN s b, .boolN s' b' => s = s' && b = b'
  | .numN s v i, .numN s' v' i' => s = s' && v = v' && i = i'
  | .strN s v, .strN s' v' => s = s' && v = v'
  | .arrN s xs, .arrN s' xs' => s = s' && Node.beqList xs xs'
  | .objN s xs, .objN s' xs' => s = s' && Node.beqList xs xs'
  | .propN s ks k v, .propN s' ks' k' v' =>
    s = s' && ks = ks' && k = k' && Node.beqOpt v v'
  | _, _ => false

def Node.beqList : List Node → List Node → Bool
  | [], [] => true
  | x :: xs, y :: ys => Node.beq x y && Node.beqList xs ys
  | _, _ => false

def Node.beqOpt : Option Node → Option Node → Bool
  | none, none => true
  | some x, some y => Node.beq x y
  | _, _ => false

end

/-- `contains(node, offset)` with `includeRightBound = false`. -/
def containsOffset (n : Node) (offset : Int) : Bool :=
  offset ≥ (n.span.offset : Int) && offset < (n.span.offset : Int) + n.span.length

/-- An applicable-schema record (`IApplicableSchema`).  `inverted` starts
out *undefined* in the source (`add({node, schema})`) and is only ever
written by `!ms.inverted`, so it is modelled as a `Bool` starting `false`.
`notCrossings` is a ghost counter incremented at exactly the one site that
flips `inverted` (the `not` handler), so it counts the `not` boundaries the
record has crossed; it exists only to state the inversion invariant. -/
structure ARecord where
  node : Node
  schema : JSchema
  inverted : Bool := false
  notCrossings : Nat := 0

/-- The two collector variants: the recording `SchemaCollector
(focusOffset, exclude)` and the singleton `NoOpSchemaCollector`. -/
inductive Collector where
  | noop
  | recording (focusOffset : Int) (exclude : Option Node)

namespace Collector

/-- `include(node)`: the no-op collector includes everything; a recording
collector wants `focusOffset === -1 || contains(node, focusOffset)` and
`node !== exclude`. -/
def includesNode : Collector → Node → Bool
  | noop, _ => true
  | recording fo ex, n =>
    (fo = -1 || containsOffset n fo) &&
      !(match ex with
        | some e => Node.beq n e
        | none => false)

/-- `newSub()`: recording collectors spawn a recording sub-collector with
`focusOffset = -1` and the same `exclude`; the no-op collector returns
itself. -/
def newSub : Collector → Collector
  | noop => noop
  | recording _ ex => recording (-1) ex

/-- `add(record)` in state-passing style: the list of records the call
appends to this collector's `schemas` array (the no-op collector
discards). -/
def addRec : Collector → ARecord → List ARecord
  | noop, _ => []
  | recording _ _, r => [r]

end Collector

/-- JavaScript exceptions the engine can raise, plus the artificial
out-of-fuel outcome of the embedding. -/
inductive VErr where
  | typeErr
  | regexErr
  | outOfFuel
deriving DecidableEq, Repr

/-- External collaborators: `new RegExp(p)` (compilation yields a matcher
or throws), `Uri.parse` (yields a scheme string or throws with a message),
and the two precompiled, always-valid format regexes. -/
structure Externals where
  regexCompile : String → Option (String → Bool)
  uriParse : String → Except String String
  emailTest : String → Bool
  colorHexTest : String → Bool

/-- Data about a node's parent needed by the engine: its span (deprecation
warnings point at the parent) and, when the parent is a property node, its
key node's span (`required` warnings point at the key). -/
structure ParentInfo where
  span : Span
  propKeySpan : Option Span := none

/-- What `validate` returns: the updated accumulator and the records
appended to the collector it was handed. -/
abbrev VOut := VR × List ARecord

/-- `merge(other)` on collectors in state-passing style: pushing a list of
records into a collector (the no-op collector discards them). -/
def Collector.addRecs : Collector → List ARecord → List ARecord
  | .noop, _ => []
  | .recording _ _, rs => rs

/-- The type of the recursive `validate` reference threaded through the
helper functions (node, parent data, schema, collector, accumulator). -/
abbrev VFun := Option Node → Option ParentInfo → JSchema → Collector → VR → Except VErr VOut

/-! ## Number validation (`_validateNumberNode`) -/

/-- JavaScript truncation toward zero. -/
def ratTrunc (q : ℚ) : Int := if q ≥ 0 then ⌊q⌋ else ⌈q⌉

/-- `val % m !== 0` for JavaScript `%` (remainder with the dividend's
sign).  `x % 0` is `NaN`, and `NaN !== 0` holds, so a zero divisor always
reports a problem. -/
def jsModNeZero (a b : ℚ) : Bool :=
  if b = 0 then true else a - b * ratTrunc (a / b) ≠ 0

/-- `getExclusiveLimit(limit, exclusive)`: a numeric `exclusive` is its own
bound; boolean `true` repurposes the adjacent limit; otherwise none. -/
def getExclusiveLimit (limit : Option ℚ) : Option (Bool ⊕ ℚ) → Option ℚ
  | some (.inr e) => some e
  | some (.inl true) => limit
  | _ => none

/-- `getLimit(limit, exclusive)`: the inclusive bound disappears exactly
when `exclusive` is boolean `true`. -/
def getLimit (limit : Option ℚ) : Option (Bool ⊕ ℚ) → Option ℚ
  | some (.inl true) => none
  | _ => limit

def validateNumberNode (span : Span) (val : ℚ) (schema : SchemaCore JSchema) (vr : VR) : VR :=
  let vr := match schema.multipleOf with
    | some m =>
      if jsModNeZero val m then vr.push ⟨span, .warning, none, .multipleOfWarning m⟩ else vr
    | none => vr
  let vr := match getExclusiveLimit schema.minimum schema.exclusiveMinimum with
    | some em =>
      if val ≤ em then vr.push ⟨span, .warning, none, .exclusiveMinimumWarning em⟩ else vr
    | none => vr
  let vr := match getExclusiveLimit schema.maximum schema.exclusiveMaximum with
    | some em =>
      if val ≥ em then vr.push ⟨span, .warning, none, .exclusiveMaximumWarning em⟩ else vr
    | none => vr
  let vr := match getLimit schema.minimum schema.exclusiveMinimum with
    | some m =>
      if val < m then vr.push ⟨span, .warning, none, .minimumWarning m⟩ else vr
    | none => vr
  match getLimit schema.maximum schema.exclusiveMaximum with
    | some m =>
      if val > m then vr.push ⟨span, .warning, none, .maximumWarning m⟩ else vr
    | none => vr

/-! ## String validation (`_validateStringNode`) -/

def validateStringNode (ext : Externals) (span : Span) (value : String)
    (schema : SchemaCore JSchema) (vr : VR) : Except VErr VR := do
  let vr := match schema.minLength with
    | some m =>
      if (value.length : ℚ) < m then vr.push ⟨span, .warning, none, .minLengthWarning m⟩ else vr
    | none => vr
  let vr := match schema.maxLength with
    | some m =>
      if (value.length : ℚ) > m then vr.push ⟨span, .warning, none, .maxLengthWarning m⟩ else vr
    | none => vr
  -- `new RegExp(schema.pattern)` throws on an invalid pattern: there is no
  -- try/catch anywhere on this path.
  let vr : VR ← match schema.pattern with
    | some p =>
      match ext.regexCompile p with
      | none => throw .regexErr
      | some test =>
        pure <| if !test value then
            vr.push ⟨span, .warning, none,
              overrideMsg2 schema.patternErrorMessage schema.errorMessage (.patternWarning p)⟩
          else vr
    | none => pure vr
  let vr := match schema.format with
    | some f =>
      if f = "uri" || f = "uri-reference" then
        let uriErr : Option UriErr :=
          if value = "" then some .uriEmpty
          else match ext.uriParse value with
            | .ok scheme => if scheme = "" && f = "uri" then some .uriSchemeMissing else none
            | .error e => some (.parseFailure e)
        match uriErr with
        | some e =>
          vr.push ⟨span, .warning, none,
            overrideMsg2 schema.patternErrorMessage schema.errorMessage (.uriFormatWarning e)⟩
        | none => vr
      else if f = "email" then
        if !ext.emailTest value then
          vr.push ⟨span, .warning, none,
            overrideMsg2 schema.patternErrorMessage schema.errorMessage .emailFormatWarning⟩
        else vr
      else if f = "color-hex" then
        if !ext.colorHexTest value then
          vr.push ⟨span, .warning, none,
            overrideMsg2 schema.patternErrorMessage schema.errorMessage .colorHexFormatWarning⟩
        else vr
      else vr
    | none => vr
  return vr

/-! ## The shared combinator pass (`_validateNode`) -/

/-- `matchesType(type)`. -/
def matchesType (node : Node) (t : String) : Bool :=
  node.typeName = t ||
    (t = "integer" && (match node with | .numN _ _ isInt => isInt | _ => false))

/-- The `allOf` loop: every subschema validates into the same result and
the same collector. -/
def runAllOf (V : VFun) (node : Node) (parent : Option ParentInfo) :
    List SchemaRef → Collector → VR → Except VErr VOut
  | [], _, vr => .ok (vr, [])
  | ref :: rest, ms, vr => do
    let (vr, recs1) ← V (some node) parent (asSchema ref) ms vr
    let (vr, recs2) ← runAllOf V node parent rest ms vr
    return (vr, recs1 ++ recs2)

/-- The running best match of `testAlternatives`. -/
structure BestMatch where
  schema : JSchema
  vr : VR
  recs : List ARecord

/-- The per-alternative loop of `testAlternatives`, accumulating the list
of cleanly-matching subschemas and the best match. -/
def testAlternativesLoop (V : VFun) (node : Node) (parent : Option ParentInfo)
    (ms : Collector) (maxOneMatch : Bool) :
    List SchemaRef → List JSchema → Option BestMatch →
    Except VErr (List JSchema × Option BestMatch)
  | [], matchList, best => .ok (matchList, best)
  | ref :: rest, matchList, best => do
    let subSchema := asSchema ref
    let (subVr, subRecs) ← V (some node) parent subSchema ms.newSub {}
    let matchList := if !subVr.hasProblems then matchList ++ [subSchema] else matchList
    let best := match best with
      | none => some ⟨subSchema, subVr, subRecs⟩
      | some b =>
        if !maxOneMatch && !subVr.hasProblems && !b.vr.hasProblems then
          -- both clean: combine scores and collectors into the best match
          some { b with
            recs := b.recs ++ subRecs
            vr := { b.vr with
              propertiesMatches := b.vr.propertiesMatches + subVr.propertiesMatches
              propertiesValueMatches :=
                b.vr.propertiesValueMatches + subVr.propertiesValueMatches } }
        else
          let c := subVr.compare b.vr
          if c > 0 then some ⟨subSchema, subVr, subRecs⟩
          else if c = 0 then
            some { b with recs := b.recs ++ subRecs, vr := b.vr.mergeEnumValues subVr }
          else some b
    testAlternativesLoop V node parent ms maxOneMatch rest matchList best

/-- `testAlternatives(alternatives, maxOneMatch)`. -/
def testAlternatives (V : VFun) (node : Node) (parent : Option ParentInfo)
    (ms : Collector) (alternatives : List SchemaRef) (maxOneMatch : Bool)
    (vr : VR) : Except VErr VOut := do
  let (matchList, best) ← testAlternativesLoop V node parent ms maxOneMatch alternatives [] none
  let vr := if matchList.length > 1 && maxOneMatch then
      vr.push ⟨⟨node.span.offset, 1⟩, .warning, none, .oneOfWarning⟩
    else vr
  match best with
  | some b =>
    let vr := vr.merge b.vr
    let vr := { vr with
      propertiesMatches := vr.propertiesMatches + b.vr.propertiesMatches
      propertiesValueMatches := vr.propertiesValueMatches + b.vr.propertiesValueMatches }
    return (vr, ms.addRecs b.recs)
  | none => return (vr, [])

/-- `testBranch(schema)`. -/
def testBranch (V : VFun) (node : Node) (parent : Option ParentInfo)
    (ms : Collector) (branch : JSchema) (vr : VR) : Except VErr VOut := do
  let (subVr, subRecs) ← V (some node) parent branch ms.newSub {}
  let vr := vr.merge subVr
  let vr := { vr with
    propertiesMatches := vr.propertiesMatches + subVr.propertiesMatches
    propertiesValueMatches := vr.propertiesValueMatches + subVr.propertiesValueMatches }
  return (vr, ms.addRecs subRecs)

/-- `testCondition(ifSchema, thenSchema, elseSchema)` (`then`/`else`
arrive already through `asSchema`, hence `Option JSchema`). -/
def testCondition (V : VFun) (node : Node) (parent : Option ParentInfo)
    (ms : Collector) (ifSchema : JSchema) (thenSchema elseSchema : Option JSchema)
    (vr : VR) : Except VErr VOut := do
  let (subVr, subRecs) ← V (some node) parent ifSchema ms.newSub {}
  let recs1 := ms.addRecs subRecs
  if !subVr.hasProblems then
    match thenSchema with
    | some t => do
      let (vr, recs2) ← testBranch V node parent ms t vr
      return (vr, recs1 ++ recs2)
    | none => return (vr, recs1)
  else
    match elseSchema with
    | some e => do
      let (vr, recs2) ← testBranch V node parent ms e vr
      return (vr, recs1 ++ recs2)
    | none => return (vr, recs1)

/-- The `type` check of `_validateNode`.  (`else if (schema.type)`: an
empty string is falsy and skips the single-type check.) -/
def typeStep (node : Node) (schema : SchemaCore JSchema) (vr : VR) : VR :=
  match schema.type with
  | some (.inr types) =>
    if !types.any (matchesType node) then
      vr.push ⟨node.span, .warning, none,
        overrideMsg schema.errorMessage (.typeArrayMismatch types)⟩
    else vr
  | some (.inl t) =>
    if t ≠ "" && !matchesType node t then
      vr.push ⟨node.span, .warning, none, overrideMsg schema.errorMessage (.typeMismatch t)⟩
    else vr
  | none => vr

/-- The `allOf` section of `_validateNode`. -/
def allOfStep (V : VFun) (node : Node) (parent : Option ParentInfo)
    (schema : SchemaCore JSchema) (ms : Collector) (vr : VR) : Except VErr VOut :=
  match schema.allOf with
  | some subs => runAllOf V node parent subs ms vr
  | none => pure (vr, [])

/-- The `not` section of `_validateNode`: a clean sub-result warns; the
sub-collector's records are flipped and added to the outer collector
regardless (this is the only site that writes `inverted`, and the ghost
`notCrossings` counts these flips). -/
def notStep (V : VFun) (node : Node) (parent : Option ParentInfo)
    (schema : SchemaCore JSchema) (ms : Collector) (vr : VR) : Except VErr VOut :=
  match asSchemaOpt schema.notS with
  | some notSchema => do
    let (subVr, subRecs) ← V (some node) parent notSchema ms.newSub {}
    let vr := if !subVr.hasProblems then
        vr.push ⟨node.span, .warning, none, .notSchemaWarning⟩
      else vr
    let flipped := subRecs.map fun r =>
      { r with inverted := !r.inverted, notCrossings := r.notCrossings + 1 }
    pure (vr, ms.addRecs flipped)
  | none => pure (vr, [])

/-- The `anyOf` (`maxOneMatch = false`) / `oneOf` (`maxOneMatch = true`)
sections of `_validateNode`. -/
def anyOfStep (V : VFun) (node : Node) (parent : Option ParentInfo)
    (alts : Option (List SchemaRef)) (maxOneMatch : Bool) (ms : Collector)
    (vr : VR) : Except VErr VOut :=
  match alts with
  | some alternatives => testAlternatives V node parent ms alternatives maxOneMatch vr
  | none => pure (vr, [])

/-- The `if`/`then`/`else` section of `_validateNode`. -/
def ifStep (V : VFun) (node : Node) (parent : Option ParentInfo)
    (schema : SchemaCore JSchema) (ms : Collector) (vr : VR) : Except VErr VOut :=
  match asSchemaOpt schema.ifS with
  | some ifSchema =>
    testCondition V node parent ms ifSchema
      (asSchemaOpt schema.thenS) (asSchemaOpt schema.elseS) vr
  | none => pure (vr, [])

/-- The `enum` section of `_validateNode`. -/
def enumStep (node : Node) (schema : SchemaCore JSchema) (vr : VR) : VR :=
  match schema.enum with
  | some enums =>
    let val := getNodeValue node
    let enumValueMatch := enums.any fun e => deepEquals val e
    let vr := { vr with enumValues := some enums, enumValueMatch := enumValueMatch }
    if !enumValueMatch then
      vr.push ⟨node.span, .warning, some .enumValueMismatch,
        overrideMsg schema.errorMessage (.enumWarning enums)⟩
    else vr
  | none => vr

/-- The `const` section of `_validateNode`. -/
def constStep (node : Node) (schema : SchemaCore JSchema) (vr : VR) : VR :=
  match schema.const with
  | some c =>
    let val := getNodeValue node
    let vr :=
      if !deepEquals val c then
        let vr := vr.push ⟨node.span, .warning, some .enumValueMismatch,
          overrideMsg schema.errorMessage (.constWarning c)⟩
        { vr with enumValueMatch := false }
      else { vr with enumValueMatch := true }
    { vr with enumValues := some [c] }
  | none => vr

/-- The `deprecationMessage` section of `_validateNode` (warns at the
*parent's* span, only when a parent exists). -/
def deprecationStep (parent : Option ParentInfo) (schema : SchemaCore JSchema)
    (vr : VR) : VR :=
  match schema.deprecationMessage, parent with
  | some d, some pi =>
    if d ≠ "" then vr.push ⟨pi.span, .warning, none, .custom d⟩ else vr
  | _, _ => vr

/-- The shared pass of `_validateNode`: `type`, `allOf`, `not`,
`anyOf`, `oneOf`, `if`/`then`/`else`, `enum`, `const`,
`deprecationMessage`, in source order. -/
def validateNode (V : VFun) (node : Node) (parent : Option ParentInfo)
    (schema : SchemaCore JSchema) (vr : VR) (ms : Collector) : Except VErr VOut := do
  let vr := typeStep node schema vr
  let (vr, recsAllOf) ← allOfStep V node parent schema ms vr
  let (vr, recsNot) ← notStep V node parent schema ms vr
  let (vr, recsAnyOf) ← anyOfStep V node parent schema.anyOf false ms vr
  let (vr, recsOneOf) ← anyOfStep V node parent schema.oneOf true ms vr
  let (vr, recsIf) ← ifStep V node parent schema ms vr
  let vr := enumStep node schema vr
  let vr := constStep node schema vr
  let vr := deprecationStep parent schema vr
  return (vr, recsAllOf ++ recsNot ++ recsAnyOf ++ recsOneOf ++ recsIf)

/-! ## Array validation (`_validateArrayNode`) -/

/-- Tuple validation: for each index of the `items` list, validate the
corresponding element; a missing element still bumps
`propertiesValueMatches` when the array reaches the tuple's length.
`total` is the tuple's full length (`subSchemas.length`). -/
def tupleLoop (V : VFun) (aspan : Span) (items : List Node) (total : Nat) :
    List SchemaRef → Nat → Collector → VR → Except VErr VOut
  | [], _, _, vr => .ok (vr, [])
  | ref :: rest, index, ms, vr => do
    let subSchema := asSchema ref
    match items.get? index with
    | some item => do
      let (itemVr, recs1) ← V (some item) (some ⟨aspan, none⟩) subSchema ms {}
      let vr := vr.mergePropertyMatch itemVr
      let (vr, recs2) ← tupleLoop V aspan items total rest (index + 1) ms vr
      return (vr, recs1 ++ recs2)
    | none => do
      let vr := if items.length ≥ total then
          { vr with propertiesValueMatches := vr.propertiesValueMatches + 1 }
        else vr
      tupleLoop V aspan items total rest (index + 1) ms vr

/-- Validate every node of a list against one schema via
`mergePropertyMatch` (single-schema `items`, and the extra elements under
an object-valued `additionalItems`). -/
def itemsLoop (V : VFun) (aspan : Span) (itemSchema : JSchema) :
    List Node → Collector → VR → Except VErr VOut
  | [], _, vr => .ok (vr, [])
  | item :: rest, ms, vr => do
    let (itemVr, recs1) ← V (some item) (some ⟨aspan, none⟩) itemSchema ms {}
    let vr := vr.mergePropertyMatch itemVr
    let (vr, recs2) ← itemsLoop V aspan itemSchema rest ms vr
    return (vr, recs1 ++ recs2)

/-- `node.items.some(...)` for `contains`: short-circuits on the first
element that validates cleanly (with the no-op collector). -/
def containsLoop (V : VFun) (aspan : Span) (cs : JSchema) :
    List Node → Except VErr Bool
  | [] => .ok false
  | item :: rest => do
    let (itemVr, _) ← V (some item) (some ⟨aspan, none⟩) cs .noop {}
    if !itemVr.hasProblems then return true else containsLoop V aspan cs rest

/-- The `items`/`additionalItems` section of `_validateArrayNode`:
tuple validation when `items` is a list (with `additionalItems` applied
past its end), element-wise validation when it is a single schema. -/
def itemsStep (V : VFun) (nspan : Span) (items : List Node)
    (schema : SchemaCore JSchema) (ms : Collector) (vr : VR) : Except VErr VOut :=
  match schema.items with
  | some (.inl subSchemas) => do
    let (vr, recs1) ← tupleLoop V nspan items subSchemas.length subSchemas 0 ms vr
    if items.length > subSchemas.length then
      match schema.additionalItems with
      | some (.inr s) => do
        -- `typeof schema.additionalItems === 'object'`
        let (vr, recs2) ← itemsLoop V nspan s (items.drop subSchemas.length) ms vr
        pure (vr, recs1 ++ recs2)
      | some (.inl false) =>
        pure (vr.push ⟨nspan, .warning, none, .additionalItemsWarning subSchemas.length⟩,
          recs1)
      | _ => pure (vr, recs1)
    else pure (vr, recs1)
  | some (.inr ref) => itemsLoop V nspan (asSchema ref) items ms vr
  | none => pure (vr, [])

/-- The `contains` section of `_validateArrayNode` (evaluated with the
no-op collector; contributes no records). -/
def containsStep (V : VFun) (nspan : Span) (items : List Node)
    (schema : SchemaCore JSchema) (vr : VR) : Except VErr VR :=
  match asSchemaOpt schema.contains with
  | some cs => do
    let doesContain ← containsLoop V nspan cs items
    pure <| if !doesContain then
        vr.push ⟨nspan, .warning, none,
          overrideMsg schema.errorMessage .requiredItemMissingWarning⟩
      else vr
  | none => pure vr

def validateArrayNode (V : VFun) (nspan : Span) (items : List Node)
    (schema : SchemaCore JSchema) (vr : VR) (ms : Collector) : Except VErr VOut := do
  let (vr, recsItems) ← itemsStep V nspan items schema ms vr
  let vr ← containsStep V nspan items schema vr
  let vr := match schema.minItems with
    | some m =>
      if (items.length : ℚ) < m then vr.push ⟨nspan, .warning, none, .minItemsWarning m⟩ else vr
    | none => vr
  let vr := match schema.maxItems with
    | some m =>
      if (items.length : ℚ) > m then vr.push ⟨nspan, .warning, none, .maxItemsWarning m⟩ else vr
    | none => vr
  let vr :=
    if schema.uniqueItems = some true then
      let values := getNodeValueList items
      if hasDuplicates values then
        vr.push ⟨nspan, .warning, none, .uniqueItemsWarning⟩
      else vr
    else vr
  return (vr, recsItems)

/-! ## Object validation (`_validateObjectNode`) -/

/-- What `seenKeys` stores per key: the property's value node together
with the property node's span and key span (standing for the
`child.parent` back-reference the source follows to report on the key). -/
structure PropEntry where
  value : Node
  propSpan : Span
  keySpan : Span

/-- `seenKeys`: key to value-node map; a key whose property has no value
node maps to `undefined` (`none`), which is falsy on lookup. -/
abbrev SeenKeys := List (String × Option PropEntry)

/-- `seenKeys[key] = v`: overwrite keeps position, new key appends. -/
def skAssign (k : String) (v : Option PropEntry) : SeenKeys → SeenKeys
  | [] => [(k, v)]
  | (k', v') :: rest => if k' = k then (k', v) :: rest else (k', v') :: skAssign k v rest

def skLookup (k : String) : SeenKeys → Option (Option PropEntry)
  | [] => none
  | (k', v) :: rest => if k' = k then some v else skLookup k rest

/-- Truthy read `seenKeys[key]`: present and bound to a value node. -/
def skGet (sk : SeenKeys) (k : String) : Option PropEntry := (skLookup k sk).join

/-- The `seenKeys`/`unprocessedProperties` builder, including the
merge-key (`<<`) branch.  That branch reads `propertyNode.value`, a field
that does not exist on `PropertyASTNodeImpl` (the class only has
`valueNode`), and immediately indexes into it — a `TypeError` at runtime
whenever the merge key's value is an object or an array; any other value
type falls through to the default case, which skips the property
entirely.  A non-property child would likewise crash reading
`propertyNode.keyNode.value`. -/
def buildSeenKeys : List Node → SeenKeys → List String → Except VErr (SeenKeys × List String)
  | [], sk, un => .ok (sk, un)
  | p :: rest, sk, un =>
    match p with
    | .propN psp ksp key v? =>
      if key = "<<" && v?.isSome then
        match v? with
        | some (.objN _ _) => throw .typeErr
        | some (.arrN _ _) => throw .typeErr
        | _ => buildSeenKeys rest sk un
      else
        buildSeenKeys rest (skAssign key (v?.map fun v => ⟨v, psp, ksp⟩) sk) (un ++ [key])
    | _ => throw .typeErr

/-- The `required` loop: a required key missing from `seenKeys` warns at
the enclosing property's key span when the object is a property value,
else at the one-character span at the object's start. -/
def requiredLoop (nspan : Span) (parent : Option ParentInfo) (sk : SeenKeys) :
    List String → VR → VR
  | [], vr => vr
  | name :: rest, vr =>
    let vr :=
      if (skGet sk name).isNone then
        let location := match parent with
          | some pi =>
            match pi.propKeySpan with
            | some ks => ks
            | none => ⟨nspan.offset, 1⟩
          | none => ⟨nspan.offset, 1⟩
        vr.push ⟨location, .warning, none, .missingRequiredPropWarning name⟩
      else vr
    requiredLoop nspan parent sk rest vr

/-- `propertyProcessed(prop)`: remove every occurrence from
`unprocessedProperties`. -/
def propertyProcessed (prop : String) (un : List String) : List String :=
  un.filter (· ≠ prop)

/-- The shared per-property body of the `properties` and
`patternProperties` loops (the source duplicates this code verbatim in
both): boolean `false` forbids the property, boolean `true` counts it,
and a schema object validates the value via `mergePropertyMatch`. -/
def validatePropAgainst (V : VFun) (errMsg : Option String) (name : String)
    (pSchema : SchemaRef) (sk : SeenKeys) (ms : Collector) (vr : VR) :
    Except VErr (VR × List ARecord) := do
  match skGet sk name with
  | some entry =>
    match pSchema with
    | .inl false =>
      pure (vr.push ⟨entry.keySpan, .warning, none,
        overrideMsg errMsg (.disallowedExtraPropWarning name)⟩, [])
    | .inl true =>
      pure ({ vr with
        propertiesMatches := vr.propertiesMatches + 1
        propertiesValueMatches := vr.propertiesValueMatches + 1 }, [])
    | .inr s => do
      let (propVr, recs) ← V (some entry.value) (some ⟨entry.propSpan, some entry.keySpan⟩) s ms {}
      pure (vr.mergePropertyMatch propVr, recs)
  | none => pure (vr, [])

/-- The `schema.properties` loop. -/
def propertiesLoop (V : VFun) (errMsg : Option String) :
    List (String × SchemaRef) → SeenKeys → List String → Collector → VR →
    Except VErr (VR × List String × List ARecord)
  | [], _, un, _, vr => .ok (vr, un, [])
  | (name, pSchema) :: rest, sk, un, ms, vr => do
    let un := propertyProcessed name un
    let (vr, recs1) ← validatePropAgainst V errMsg name pSchema sk ms vr
    let (vr, un, recs2) ← propertiesLoop V errMsg rest sk un ms vr
    return (vr, un, recs1 ++ recs2)

/-- The inner `patternProperties` loop over a snapshot of
`unprocessedProperties`. -/
def patternPropsInner (V : VFun) (errMsg : Option String) (test : String → Bool)
    (pSchema : SchemaRef) :
    List String → SeenKeys → List String → Collector → VR →
    Except VErr (VR × List String × List ARecord)
  | [], _, un, _, vr => .ok (vr, un, [])
  | name :: restSnap, sk, un, ms, vr => do
    if test name then
      let un := propertyProcessed name un
      let (vr, recs1) ← validatePropAgainst V errMsg name pSchema sk ms vr
      let (vr, un, recs2) ← patternPropsInner V errMsg test pSchema restSnap sk un ms vr
      return (vr, un, recs1 ++ recs2)
    else
      patternPropsInner V errMsg test pSchema restSnap sk un ms vr

/-- The outer `patternProperties` loop: each pattern is compiled with
`new RegExp` (throwing on an invalid pattern) and scanned over a snapshot
(`slice(0)`) of the still-unprocessed keys. -/
def patternPropsLoop (V : VFun) (ext : Externals) (errMsg : Option String) :
    List (String × SchemaRef) → SeenKeys → List String → Collector → VR →
    Except VErr (VR × List String × List ARecord)
  | [], _, un, _, vr => .ok (vr, un, [])
  | (pat, pSchema) :: rest, sk, un, ms, vr => do
    match ext.regexCompile pat with
    | none => throw .regexErr
    | some test => do
      let (vr, un, recs1) ← patternPropsInner V errMsg test pSchema un sk un ms vr
      let (vr, un, recs2) ← patternPropsLoop V ext errMsg rest sk un ms vr
      return (vr, un, recs1 ++ recs2)

/-- One key of the object-valued `additionalProperties` pass: a remaining
key with a value node validates it via `mergePropertyMatch`. -/
def addPropOne (V : VFun) (s : JSchema) (sk : SeenKeys) (name : String)
    (ms : Collector) (vr : VR) : Except VErr VOut :=
  match skGet sk name with
  | some entry => do
    let (propVr, recs) ←
      V (some entry.value) (some ⟨entry.propSpan, some entry.keySpan⟩) s ms {}
    pure (vr.mergePropertyMatch propVr, recs)
  | none => pure (vr, [])

/-- Object-valued `additionalProperties`: validate every remaining value. -/
def addPropsLoop (V : VFun) (s : JSchema) (sk : SeenKeys) :
    List String → Collector → VR → Except VErr VOut
  | [], _, vr => .ok (vr, [])
  | name :: rest, ms, vr => do
    let (vr, recs1) ← addPropOne V s sk name ms vr
    let (vr, recs2) ← addPropsLoop V s sk rest ms vr
    return (vr, recs1 ++ recs2)

/-- `additionalProperties: false`: one "not allowed" warning per remaining
key occurrence. -/
def disallowedLoop (errMsg : Option String) (sk : SeenKeys) :
    List String → VR → VR
  | [], vr => vr
  | name :: rest, vr =>
    let vr := match skGet sk name with
      | some entry =>
        vr.push ⟨entry.keySpan, .warning, none,
          overrideMsg errMsg (.disallowedExtraPropWarning name)⟩
      | none => vr
    disallowedLoop errMsg sk rest vr

/-- A list-of-names dependency: each missing name warns at the node span,
each present one bumps `propertiesValueMatches`. -/
def depNamesLoop (nspan : Span) (sk : SeenKeys) (key : String) :
    List String → VR → VR
  | [], vr => vr
  | rp :: rest, vr =>
    let vr :=
      if (skGet sk rp).isNone then
        vr.push ⟨nspan, .warning, none, .requiredDependentPropWarning rp key⟩
      else { vr with propertiesValueMatches := vr.propertiesValueMatches + 1 }
    depNamesLoop nspan sk key rest vr

/-- One entry of the `dependencies` pass (only when the key is present):
a list dependency checks names, a schema dependency re-validates the whole
object node via `mergePropertyMatch`. -/
def depOne (V : VFun) (node : Node) (nspan : Span) (parent : Option ParentInfo)
    (sk : SeenKeys) (key : String) (dep : List String ⊕ SchemaRef)
    (ms : Collector) (vr : VR) : Except VErr VOut :=
  if (skGet sk key).isSome then
    match dep with
    | .inl names => pure (depNamesLoop nspan sk key names vr, ([] : List ARecord))
    | .inr ref => do
      let (propVr, recs) ← V (some node) parent (asSchema ref) ms {}
      pure (vr.mergePropertyMatch propVr, recs)
  else pure (vr, [])

/-- The `dependencies` loop; a schema-valued dependency re-validates the
whole object node. -/
def dependenciesLoop (V : VFun) (node : Node) (nspan : Span)
    (parent : Option ParentInfo) (sk : SeenKeys) :
    List (String × (List String ⊕ SchemaRef)) → Collector → VR → Except VErr VOut
  | [], _, vr => .ok (vr, [])
  | (key, dep) :: rest, ms, vr => do
    let (vr, recs1) ← depOne V node nspan parent sk key dep ms vr
    let (vr, recs2) ← dependenciesLoop V node nspan parent sk rest ms vr
    return (vr, recs1 ++ recs2)

/-- `propertyNames`: every key node validates against the subschema into
the main result, with the no-op collector. -/
def propertyNamesLoop (V : VFun) (pn : JSchema) :
    List Node → VR → Except VErr VR
  | [], vr => .ok vr
  | .propN psp ksp k _ :: rest, vr => do
    let (vr, _) ← V (some (.strN ksp k)) (some ⟨psp, some ksp⟩) pn .noop vr
    propertyNamesLoop V pn rest vr
  | _ :: rest, vr => propertyNamesLoop V pn rest vr

/-- The `schema.properties` section of `_validateObjectNode`. -/
def propertiesStep (V : VFun) (schema : SchemaCore JSchema) (sk : SeenKeys)
    (un : List String) (ms : Collector) (vr : VR) :
    Except VErr (VR × List String × List ARecord) :=
  match schema.properties with
  | some ps => propertiesLoop V schema.errorMessage ps sk un ms vr
  | none => pure (vr, un, [])

/-- The `schema.patternProperties` section of `_validateObjectNode`. -/
def patternPropertiesStep (V : VFun) (ext : Externals) (schema : SchemaCore JSchema)
    (sk : SeenKeys) (un : List String) (ms : Collector) (vr : VR) :
    Except VErr (VR × List String × List ARecord) :=
  match schema.patternProperties with
  | some pps => patternPropsLoop V ext schema.errorMessage pps sk un ms vr
  | none => pure (vr, un, [])

/-- The `schema.additionalProperties` section of `_validateObjectNode`:
an object schema validates every remaining value, `false` forbids every
remaining key, `true`/absent do nothing. -/
def additionalPropertiesStep (V : VFun) (schema : SchemaCore JSchema) (sk : SeenKeys)
    (un : List String) (ms : Collector) (vr : VR) : Except VErr VOut :=
  match schema.additionalProperties with
  | some (.inr s) => addPropsLoop V s sk un ms vr
  | some (.inl false) => pure (disallowedLoop schema.errorMessage sk un vr, [])
  | _ => pure (vr, [])

/-- The `schema.dependencies` section of `_validateObjectNode`. -/
def dependenciesStep (V : VFun) (node : Node) (nspan : Span)
    (parent : Option ParentInfo) (schema : SchemaCore JSchema) (sk : SeenKeys)
    (ms : Collector) (vr : VR) : Except VErr VOut :=
  match schema.dependencies with
  | some deps => dependenciesLoop V node nspan parent sk deps ms vr
  | none => pure (vr, [])

/-- The `schema.propertyNames` section of `_validateObjectNode`. -/
def propertyNamesStep (V : VFun) (schema : SchemaCore JSchema) (props : List Node)
    (vr : VR) : Except VErr VR :=
  match asSchemaOpt schema.propertyNames with
  | some pn => propertyNamesLoop V pn props vr
  | none => pure vr

def validateObjectNode (V : VFun) (ext : Externals) (node : Node) (nspan : Span)
    (props : List Node) (parent : Option ParentInfo) (schema : SchemaCore JSchema)
    (vr : VR) (ms : Collector) : Except VErr VOut := do
  let (sk, un) ← buildSeenKeys props [] []
  let vr := match schema.required with
    | some req => requiredLoop nspan parent sk req vr
    | none => vr
  let (vr, un, recs1) ← propertiesStep V schema sk un ms vr
  let (vr, un, recs2) ← patternPropertiesStep V ext schema sk un ms vr
  let (vr, recs3) ← additionalPropertiesStep V schema sk un ms vr
  let vr := match schema.maxProperties with
    | some m =>
      if (props.length : ℚ) > m then vr.push ⟨nspan, .warning, none, .maxPropWarning m⟩ else vr
    | none => vr
  let vr := match schema.minProperties with
    | some m =>
      if (props.length : ℚ) < m then vr.push ⟨nspan, .warning, none, .minPropWarning m⟩ else vr
    | none => vr
  let (vr, recs4) ← dependenciesStep V node nspan parent schema sk ms vr
  let vr ← propertyNamesStep V schema props vr
  return (vr, recs1 ++ recs2 ++ recs3 ++ recs4)

/-! ## The recursive `validate` -/

/-- `validate(node, schema, validationResult, matchingSchemas)`.

The early exits (`!node`, `!matchingSchemas.include(node)`) happen before
any work; a `property` node delegates to its value node without running
the shared pass or recording itself.  Other nodes run their type-specific
validator, then the shared pass, then record `{node, schema}` in the
collector.  The `Nat` argument is recursion fuel (the source recursion is
bounded by AST depth times schema nesting; every theorem below either
quantifies over the fuel or supplies enough for its concrete input). -/
def validate (ext : Externals) : Nat → VFun
  | fuel, node?, parent, schema, ms, vr =>
    match node? with
    | none => .ok (vr, [])
    | some node =>
      if !ms.includesNode node then .ok (vr, [])
      else
        match fuel with
        | 0 => throw .outOfFuel
        | f + 1 =>
          match node with
          | .propN sp ksp _ v? =>
            validate ext f v? (some ⟨sp, some ksp⟩) schema ms vr
          | _ => do
            let (vr, recs1) ←
              match node with
              | .objN sp props =>
                validateObjectNode (validate ext f) ext node sp props parent schema.core vr ms
              | .arrN sp items =>
                validateArrayNode (validate ext f) sp items schema.core vr ms
              | .strN sp v => do
                let vr ← validateStringNode ext sp v schema.core vr
                pure (vr, ([] : List ARecord))
              | .numN sp v _ => pure (validateNumberNode sp v schema.core vr, [])
              | _ => pure (vr, [])
            let (vr, recs2) ← validateNode (validate ext f) node parent schema.core vr ms
            return (vr, recs1 ++ recs2 ++ ms.addRec { node := node, schema := schema })

/-! ## The document façade (`JSONDocument`) -/

/-- A position resolver (`textDocument.positionAt`), an external
collaborator: maps an offset to a line/character pair. -/
abbrev PositionAt := Nat → Nat × Nat

/-- An LSP `Diagnostic` as built by `JSONDocument.validate`. -/
structure Diagnostic where
  start : Nat × Nat
  stop : Nat × Nat
  message : Message
  severity : Severity
  code : Option ECode
deriving Repr

/-- `JSONDocument.validate(textDocument, schema)`: `null` (here `none`)
when there is no root or no schema; otherwise the problems of a run with
the no-op collector, converted to diagnostics. -/
def docValidate (ext : Externals) (fuel : Nat) (posAt : PositionAt)
    (root : Option Node) (schema : Option JSchema) :
    Except VErr (Option (List Diagnostic)) :=
  match root, schema with
  | some r, some s => do
    let (vr, _) ← validate ext fuel (some r) none s .noop {}
    return some (vr.problems.map fun p =>
      { start := posAt p.location.offset
        stop := posAt (p.location.offset + p.location.length)
        message := p.message
        severity := p.severity
        code := p.code })
  | _, _ => .ok none

/-- `JSONDocument.getMatchingSchemas(schema, focusOffset, exclude)`: runs
with a fresh recording collector (empty when there is no root or no
schema) and returns its records. -/
def getMatchingSchemas (ext : Externals) (fuel : Nat) (root : Option Node)
    (schema : Option JSchema) (focusOffset : Int)
    (exclude : Option Node) : Except VErr (List ARecord) :=
  match root, schema with
  | some r, some s => do
    let (_, recs) ← validate ext fuel (some r) none s (.recording focusOffset exclude) {}
    return recs
  | _, _ => .ok []

/-! ## `JSONDocument.visit`

`doVisit(node)` calls the visitor, then loops over the children while the
continue-flag stays true; the flag it *returns* is the one produced by the
last visited descendant.  Besides that flag we return the (ghost) list of
nodes on which the visitor was called, in call order.  A property node's
children are its (leaf) key node followed by its value node. -/

mutual

def doVisit (fn : Node → Bool) : Node → Bool × List Node
  | .arrN s items =>
    let n := Node.arrN s items
    if fn n then
      let (c, vs) := doVisitList fn items
      (c, n :: vs)
    else (false, [n])
  | .objN s props =>
    let n := Node.objN s props
    if fn n then
      let (c, vs) := doVisitList fn props
      (c, n :: vs)
    else (false, [n])
  | .propN s ks k v? =>
    let n := Node.propN s ks k v?
    if fn n then
      let keyNode := Node.strN ks k
      if fn keyNode then
        match v? with
        | some v =>
          let (c, vs) := doVisit fn v
          (c, n :: keyNode :: vs)
        | none => (true, [n, keyNode])
      else (false, [n, keyNode])
    else (false, [n])
  | n => (fn n, [n])

def doVisitList (fn : Node → Bool) : List Node → Bool × List Node
  | [] => (true, [])
  | x :: xs =>
    let (c, vs) := doVisit fn x
    if c then
      let (c', vs') := doVisitList fn xs
      (c', vs ++ vs')
    else (false, vs)

end

/-- `JSONDocument.visit(visitor)`: the sequence of nodes the visitor is
called on (nothing when the document has no root). -/
def docVisit (root : Option Node) (fn : Node → Bool) : List Node :=
  match root with
  | some r => (doVisit fn r).2
  | none => []

mutual

/-- The full pre-order traversal of a node (the order `visit` would use
with a visitor that always continues). -/
def preorder : Node → List Node
  | .arrN s items => Node.arrN s items :: preorderList items
  | .objN s props => Node.objN s props :: preorderList props
  | .propN s ks k v? =>
    Node.propN s ks k v? :: Node.strN ks k ::
      (match v? with | some v => preorder v | none => [])
  | n => [n]

def preorderList : List Node → List Node
  | [] => []
  | x :: xs => preorder x ++ preorderList xs

end

/-- The prefix of a list up to and including the first element on which
`fn` is false. -/
def takeThroughFalse (fn : Node → Bool) : List Node → List Node
  | [] => []
  | x :: xs => if fn x then x :: takeThroughFalse fn xs else [x]

/-! ## Concrete fixtures used by the claim theorems -/

/-- A benign regex engine / URI parser: every pattern compiles (to an
always-true matcher) and every URI parses with scheme `"file"`.  The
concrete runs below never exercise their answers. -/
def trivialExternals : Externals where
  regexCompile := fun _ => some fun _ => true
  uriParse := fun _ => .ok "file"
  emailTest := fun _ => true
  colorHexTest := fun _ => true

/-- A regex engine whose compilation rejects every pattern (standing for
`new RegExp` on a syntactically invalid pattern such as `"("`). -/
def rejectingExternals : Externals where
  regexCompile := fun _ => none
  uriParse := fun _ => .ok "file"
  emailTest := fun _ => true
  colorHexTest := fun _ => true

/-- A position resolver placing offset `n` at line 0, character `n`. -/
def posId : PositionAt := fun n => (0, n)

/-- The document `5` (a root number node spanning one character). -/
def docFive : Node := .numN ⟨0, 1⟩ 5 true

/-- The schema `{anyOf: [{type: "string"}, {type: "number", minimum: 10}]}`. -/
def schemaAnyOfStrNum : JSchema :=
  .mk { anyOf := some [.inr (.mk { type := some (.inl "string") }),
                       .inr (.mk { type := some (.inl "number"), minimum := some 10 })] }

/-- The document `{"<<": {"a": 1}, "b": 2}` with its source spans. -/
def docMergeKey : Node :=
  .objN ⟨0, 24⟩
    [ .propN ⟨1, 15⟩ ⟨1, 4⟩ "<<"
        (some (.objN ⟨7, 9⟩ [.propN ⟨8, 6⟩ ⟨8, 3⟩ "a" (some (.numN ⟨13, 1⟩ 1 true))]))
    , .propN ⟨17, 6⟩ ⟨17, 3⟩ "b" (some (.numN ⟨22, 1⟩ 2 true)) ]

/-- The schema `{type: "object", required: ["a", "b"]}`. -/
def schemaRequiredAB : JSchema :=
  .mk { type := some (.inl "object"), required := some ["a", "b"] }

/-- A schema with only `uniqueItems: true`. -/
def schemaUnique : JSchema := .mk { uniqueItems := some true }

/-- The first element of the document `[[], []]`: an empty array node. -/
def emptyArr1 : Node := .arrN ⟨1, 2⟩ []

/-- The second, *distinct* element of `[[], []]` (different span), whose
value is deep-equal to the first element's. -/
def emptyArr2 : Node := .arrN ⟨4, 2⟩ []

/-- The document `[[], []]`. -/
def docTwoEmptyArrays : Node := .arrN ⟨0, 7⟩ [emptyArr1, emptyArr2]

/-- A schema whose `pattern` is the invalid regex `"("`. -/
def schemaBadPattern : JSchema := .mk { pattern := some "(" }

/-- The document `"abc"` (a root string node). -/
def docAbc : Node := .strN ⟨0, 5⟩ "abc"

/-- The array document `[1, 2, 3]` (fixture for the `visit` claim). -/
def visitItem1 : Node := .numN ⟨1, 1⟩ 1 true

def visitItem2 : Node := .numN ⟨4, 1⟩ 2 true

def visitItem3 : Node := .numN ⟨7, 1⟩ 3 true

def docVisitArr : Node := .arrN ⟨0, 9⟩ [visitItem1, visitItem2, visitItem3]

/-- A visitor returning `false` exactly on `visitItem1` (it compares the
span, which identifies the node uniquely in `docVisitArr`). -/
def stopAtItem1 : Node → Bool := fun n =>
  match n with
  | .numN s _ _ => !(s.offset = 1 && s.length = 1)
  | _ => true

/-- A schema containing a `not` (fixture for the inversion witness):
`{not: {type: "string"}}`. -/
def schemaNotString : JSchema :=
  .mk { notS := some (.inr (.mk { type := some (.inl "string") })) }

/-- The inversion invariant on an applicable-schema record: `inverted` is
set iff the record crossed an odd number of `not` boundaries. -/
def RecInv (r : ARecord) : Prop := r.inverted = true ↔ r.notCrossings % 2 = 1

/-- Every record of the list satisfies the inversion invariant. -/
def RecsOK (l : List ARecord) : Prop := ∀ r ∈ l, RecInv r

/-- A validation function maintains the inversion invariant on every
record list it returns. -/
def VInv (V : VFun) : Prop :=
  ∀ n p s ms vr out, V n p s ms vr = .ok out → RecsOK out.2

/-! # Claims -/

/-- C9: `JSONDocument.validate` returns `null` (`none` here — not an
empty diagnostic list) whenever the document has no root node or the
schema argument is absent, and under the same conditions
`getMatchingSchemas` returns an empty list. -/
theorem C9_no_root_or_schema (ext : Externals) (fuel : Nat) (posAt : PositionAt)
    (root : Option Node) (schema : Option JSchema) (fo : Int) (ex : Option Node)
    (h : root = none ∨ schema = none) :
    docValidate ext fuel posAt root schema = .ok none ∧
    getMatchingSchemas ext fuel root schema fo ex = .ok [] := by
  rcases h with h | h <;> subst h
  · exact ⟨rfl, rfl⟩
  · cases root <;> exact ⟨rfl, rfl⟩

/-- Witness for C9 at a concrete input: no root, a present schema. -/
theorem C9_no_root_or_schema_witness :
    docValidate trivialExternals 3 posId none (some schemaUnique) = .ok none ∧
    getMatchingSchemas trivialExternals 3 none (some schemaUnique) (-1) none = .ok [] :=
  C9_no_root_or_schema trivialExternals 3 posId none (some schemaUnique) (-1) none
    (Or.inl rfl)

/-- C10: `validate` with an absent node returns immediately with the
accumulator untouched and no records; the same holds for a node the
collector excludes, and for a property node whose `valueNode` is absent
(whose `property` case delegates to the absent value node). -/
theorem C10_absent_node_returns_immediately (ext : Externals) (fuel : Nat)
    (parent : Option ParentInfo) (schema : JSchema) (ms : Collector) (vr : VR) :
    validate ext fuel none parent schema ms vr = .ok (vr, []) ∧
    (∀ node : Node, ms.includesNode node = false →
      validate ext fuel (some node) parent schema ms vr = .ok (vr, [])) ∧
    (∀ (f : Nat) (sp ksp : Span) (k : String),
      fuel = f + 1 →
      validate ext fuel (some (.propN sp ksp k none)) parent schema ms vr = .ok (vr, [])) := by
  refine ⟨by simp [validate], fun node h => ?_, fun f sp ksp k hf => ?_⟩
  · cases fuel <;> simp [validate, h]
  · subst hf
    by_cases h : ms.includesNode (.propN sp ksp k none) = true <;>
      simp [validate, h]

/-- Witness for C10 at concrete inputs: an excluded node and a
value-less property node under a recording collector. -/
theorem C10_absent_node_returns_immediately_witness :
    validate trivialExternals 4 none none schemaUnique .noop {} = .ok ({}, []) ∧
    validate trivialExternals 4 (some docFive) none schemaUnique
      (.recording (-1) (some docFive)) {} = .ok ({}, []) ∧
    validate trivialExternals 4 (some (.propN ⟨0, 4⟩ ⟨0, 1⟩ "k" none)) none schemaUnique
      .noop {} = .ok ({}, []) := by
  refine ⟨(C10_absent_node_returns_immediately trivialExternals 4 none schemaUnique .noop {}).1,
    (C10_absent_node_returns_immediately trivialExternals 4 none schemaUnique
      (.recording (-1) (some docFive)) {}).2.1 docFive (by decide), ?_⟩
  exact (C10_absent_node_returns_immediately trivialExternals 4 none schemaUnique .noop {}).2.2
    3 ⟨0, 4⟩ ⟨0, 1⟩ "k" rfl

/-- C6: for a number node of value `v`:
* `exclusiveMinimum: true` turns `minimum` into a purely exclusive bound —
  one warning iff `v ≤ minimum`, and never an inclusive-minimum warning;
* a numeric `exclusiveMinimum` is an independent exclusive bound
  (one warning iff `v ≤ exclusiveMinimum`) while `minimum` stays inclusive
  (one warning iff `v < minimum`), each violation with its own warning;
* symmetrically for `maximum`/`exclusiveMaximum`. -/
theorem C6_number_bounds (sp : Span) (v m : ℚ) :
    ((validateNumberNode sp v
        { minimum := some m, exclusiveMinimum := some (.inl true) } {}).problems =
      if v ≤ m then [⟨sp, .warning, none, .exclusiveMinimumWarning m⟩] else []) ∧
    (∀ e : ℚ, (validateNumberNode sp v
        { minimum := some m, exclusiveMinimum := some (.inr e) } {}).problems =
      (if v ≤ e then [⟨sp, .warning, none, .exclusiveMinimumWarning e⟩] else []) ++
      (if v < m then [⟨sp, .warning, none, .minimumWarning m⟩] else [])) ∧
    ((validateNumberNode sp v
        { maximum := some m, exclusiveMaximum := some (.inl true) } {}).problems =
      if v ≥ m then [⟨sp, .warning, none, .exclusiveMaximumWarning m⟩] else []) ∧
    (∀ e : ℚ, (validateNumberNode sp v
        { maximum := some m, exclusiveMaximum := some (.inr e) } {}).problems =
      (if v ≥ e then [⟨sp, .warning, none, .exclusiveMaximumWarning e⟩] else []) ++
      (if v > m then [⟨sp, .warning, none, .maximumWarning m⟩] else [])) := by
  refine ⟨?_, fun e => ?_, ?_, fun e => ?_⟩ <;>
    simp only [validateNumberNode, getExclusiveLimit, getLimit, VR.push] <;>
    split_ifs <;> simp

/-- C7: `compare` is antisymmetric (`compare(a,b) = -compare(b,a)`),
reflexively zero (`compare(a,a) = 0`), and the strict order induced by
its sign is transitive (it is lexicographic on has-problems,
`enumValueMatch`, `primaryValueMatches`, `propertiesValueMatches`,
`propertiesMatches`). -/
theorem C7_compare_laws (a b c : VR) :
    (VR.compare a b = -VR.compare b a) ∧
    (VR.compare a a = 0) ∧
    (0 < VR.compare a b → 0 < VR.compare b c → 0 < VR.compare a c) := by
  unfold VR.compare
  refine ⟨?_, by simp, ?_⟩
  · cases hA : a.hasProblems <;> cases hB : b.hasProblems <;>
      cases eA : a.enumValueMatch <;> cases eB : b.enumValueMatch <;>
      simp [hA, hB, eA, eB] <;> split_ifs <;> omega
  · cases hA : a.hasProblems <;> cases hB : b.hasProblems <;> cases hC : c.hasProblems <;>
      cases eA : a.enumValueMatch <;> cases eB : b.enumValueMatch <;>
      cases eC : c.enumValueMatch <;>
      simp [hA, hB, eA, eB, hC, eC] <;> split_ifs <;> omega

/-- Witness for C7's transitivity at concrete results: three clean
results with descending `propertiesMatches`. -/
theorem C7_compare_laws_witness :
    0 < VR.compare { propertiesMatches := 2 } { propertiesMatches := 0 } :=
  (C7_compare_laws { propertiesMatches := 2 } { propertiesMatches := 1 }
    { propertiesMatches := 0 }).2.2 (by decide) (by decide)

/-- C1 counterexample: validating `5` against
`{anyOf: [{type: "string"}, {type: "number", minimum: 10}]}` returns one
diagnostic, but it is `Incorrect type. Expected "string".` (the *string*
branch's problem), not `Value is below the minimum of 10.` as the claim
states: both branches have one problem and tie with `compare = 0`, and a
tie keeps the earlier best match, so the first (`string`) alternative
wins. -/
theorem C1_counterexample :
    docValidate trivialExternals 10 posId (some docFive) (some schemaAnyOfStrNum) =
      .ok (some [{ start := (0, 0), stop := (0, 1), message := .typeMismatch "string",
                   severity := .warning, code := none }]) ∧
    Message.typeMismatch "string" ≠ Message.minimumWarning 10 :=
  ⟨rfl, by simp⟩

/-- C1 amended: for `5` against
`{anyOf: [{type: "string"}, {type: "number", minimum: 10}]}`, `validate`
returns exactly one diagnostic — the warning
`Incorrect type. Expected "string".` spanning the `5` token — because the
two failing alternatives compare equal and the tie keeps the first
(`string`) branch as best match. -/
theorem C1_anyOf_best_match_is_string_branch :
    docValidate trivialExternals 10 posId (some docFive) (some schemaAnyOfStrNum) =
      .ok (some [{ start := (0, 0), stop := (0, 1), message := .typeMismatch "string",
                   severity := .warning, code := none }]) := rfl

/-- C2: validating `{"<<": {"a": 1}, "b": 2}` against
`{type: "object", required: ["a", "b"]}` does not produce the claimed
empty diagnostic list: the merge-key branch reads
`propertyNode.value["properties"]`, and `PropertyASTNodeImpl` has no
`value` field (only `valueNode`), so indexing `undefined` throws a
`TypeError` before any required-property check runs. -/
theorem C2_merge_key_throws_type_error :
    docValidate trivialExternals 10 posId (some docMergeKey) (some schemaRequiredAB) =
      .error .typeErr := rfl

/-- C4 counterexample: with a regex engine that rejects the pattern `"("`
(as `new RegExp` does), validating the string `"abc"` against
`{pattern: "("}` does *not* deliver a diagnostics list with the pattern
check disabled — the `SyntaxError` from `new RegExp(schema.pattern)`
propagates out of `validate`, which has no try/catch. -/
theorem C4_counterexample :
    docValidate rejectingExternals 10 posId (some docAbc) (some schemaBadPattern) =
      .error .regexErr := rfl

/-- C4 amended: whenever `schema.pattern` fails to compile, validating a
string node against that schema *throws*: the regex `SyntaxError` aborts
validation (no diagnostics are delivered), rather than silently disabling
the check. -/
theorem C4_invalid_pattern_throws (ext : Externals) (pat : String)
    (h : ext.regexCompile pat = none) (posAt : PositionAt) (sp : Span)
    (value : String) (f : Nat) :
    docValidate ext (f + 1) posAt (some (.strN sp value))
      (some (.mk { pattern := some pat })) = .error .regexErr := by
  simp only [docValidate, validate, validateStringNode, JSchema.core, h,
    Collector.includesNode]
  rfl

/-- Witness for C4's amended statement at the concrete rejecting engine
and pattern `"("`. -/
theorem C4_invalid_pattern_throws_witness :
    docValidate rejectingExternals 8 posId (some (.strN ⟨0, 5⟩ "abc"))
      (some (.mk { pattern := some "(" })) = .error .regexErr :=
  C4_invalid_pattern_throws rejectingExternals "(" rfl posId ⟨0, 5⟩ "abc" 7

/-! Helper lemmas for the `uniqueItems` duplicate scan
(`values.some((value, index) => index !== values.lastIndexOf(value))`). -/

theorem strictEqAt_self (values : List JValue) (i : Nat) : strictEqAt values i i = true := by
  simp [strictEqAt]

/-- `lastIndexOf` dominates every strictly-equal index below the scan
bound. -/
theorem aux_ge_hit (values : List JValue) (i j : Nat)
    (hhit : strictEqAt values i j = true) :
    ∀ k, j < k → (j : Int) ≤ jsLastIndexOfAux values i k := by
  intro k
  induction k with
  | zero => omega
  | succ k ih =>
    intro hjk
    simp only [jsLastIndexOfAux]
    split_ifs with h
    · omega
    · have hne : j ≠ k := fun he => by subst he; simp [hhit] at h
      exact ih (by omega)

/-- A non-`-1` answer of the scan points at a strictly-equal index. -/
theorem aux_hit_of_ne (values : List JValue) (i : Nat) :
    ∀ k m, jsLastIndexOfAux values i k = m → m ≠ -1 →
      ∃ jj : Nat, (jj : Int) = m ∧ jj < k ∧ strictEqAt values i jj = true := by
  intro k
  induction k with
  | zero => intro m hm hne; simp [jsLastIndexOfAux] at hm; omega
  | succ k ih =>
    intro m hm hne
    simp only [jsLastIndexOfAux] at hm
    split_ifs at hm with h
    · exact ⟨k, by omega, by omega, h⟩
    · obtain ⟨jj, h1, h2, h3⟩ := ih m hm hne
      exact ⟨jj, h1, by omega, h3⟩

/-- The duplicate scan fires exactly when two distinct indices hold
strictly-equal (primitive) values. -/
theorem hasDuplicates_iff (values : List JValue) :
    hasDuplicates values = true ↔
      ∃ i j, i < j ∧ j < values.length ∧
        jsPrimEq (values.getD i .null) (values.getD j .null) = true := by
  constructor
  · intro h
    simp only [hasDuplicates, jsLastIndexOf, List.any_eq_true, List.mem_range,
      decide_eq_true_eq] at h
    obtain ⟨i, hin, hne⟩ := h
    have hge : (i : Int) ≤ jsLastIndexOfAux values i values.length :=
      aux_ge_hit values i i (strictEqAt_self values i) values.length hin
    obtain ⟨jj, h1, h2, h3⟩ := aux_hit_of_ne values i values.length _ rfl (by omega)
    have hij : i < jj := by omega
    refine ⟨i, jj, hij, h2, ?_⟩
    simp only [strictEqAt, Bool.or_eq_true, decide_eq_true_eq] at h3
    rcases h3 with h' | h'
    · omega
    · exact h'
  · rintro ⟨i, j, hij, hjn, hpe⟩
    simp only [hasDuplicates, jsLastIndexOf, List.any_eq_true, List.mem_range,
      decide_eq_true_eq]
    refine ⟨i, by omega, ?_⟩
    have hse : strictEqAt values i j = true := by
      simp only [strictEqAt, Bool.or_eq_true]
      exact Or.inr hpe
    have : (j : Int) ≤ jsLastIndexOfAux values i values.length :=
      aux_ge_hit values i j hse values.length hjn
    omega

/-- C3 counterexample: validating `[[], []]` against
`{uniqueItems: true}` emits *no* diagnostics even though the two distinct
elements (different spans) have deep-equal values: `lastIndexOf` uses
strict equality, under which two freshly built arrays are never equal. -/
theorem C3_counterexample :
    docValidate trivialExternals 10 posId (some docTwoEmptyArrays) (some schemaUnique) =
      .ok (some []) ∧
    deepEquals (getNodeValue emptyArr1) (getNodeValue emptyArr2) = true :=
  ⟨rfl, rfl⟩

/-- C3 amended: for every array node validated against
`{uniqueItems: true}`, exactly one `Array has duplicate items.` warning is
emitted iff two *distinct indices* hold strictly-equal primitive values
(`null`, booleans, numbers, strings compared by value); array- and
object-valued elements never count as duplicates (strict equality on
freshly built values is reference equality there), so no warning is
emitted even when such elements are deep-equal. -/
theorem C3_uniqueItems_uses_strict_equality (ext : Externals) (f : Nat)
    (sp : Span) (items : List Node) :
    (validate ext (f + 1) (some (.arrN sp items)) none schemaUnique .noop {} =
      .ok ({ problems := if hasDuplicates (getNodeValueList items) = true
                         then [⟨sp, .warning, none, .uniqueItemsWarning⟩] else [] }, [])) ∧
    (∀ values : List JValue,
      hasDuplicates values = true ↔
        ∃ i j, i < j ∧ j < values.length ∧
          jsPrimEq (values.getD i .null) (values.getD j .null) = true) := by
  constructor
  · cases h : hasDuplicates (getNodeValueList items) <;>
      simp [validate, validateArrayNode, validateNode, schemaUnique, JSchema.core,
        Collector.includesNode, asSchemaOpt, h, VR.push, Collector.addRec] <;> rfl
  · exact hasDuplicates_iff

/-! Helper lemmas characterising `visit`. -/

theorem takeThroughFalse_of_all (fn : Node → Bool) (l : List Node) (h : l.all fn = true) :
    takeThroughFalse fn l = l := by
  induction l with
  | nil => rfl
  | cons x xs ih =>
    simp only [List.all_cons, Bool.and_eq_true] at h
    simp [takeThroughFalse, h.1, ih h.2]

theorem takeThroughFalse_append (fn : Node → Bool) (l1 l2 : List Node) :
    takeThroughFalse fn (l1 ++ l2) =
      if l1.all fn then l1 ++ takeThroughFalse fn l2 else takeThroughFalse fn l1 := by
  induction l1 with
  | nil => simp [takeThroughFalse]
  | cons x xs ih =>
    by_cases hx : fn x = true
    · simp [takeThroughFalse, hx, ih]
      split_ifs <;> simp
    · simp [takeThroughFalse, hx, ih]

mutual

/-- `doVisit` visits the pre-order prefix up to and including the first
node on which the visitor answers `false`, and its continue-flag reports
whether the whole subtree's pre-order passed. -/
theorem doVisit_spec (fn : Node → Bool) (n : Node) :
    doVisit fn n = ((preorder n).all fn, takeThroughFalse fn (preorder n)) := by
  cases n with
  | nullN s => by_cases h : fn (.nullN s) = true <;> simp [doVisit, preorder, takeThroughFalse, h]
  | boolN s b => by_cases h : fn (.boolN s b) = true <;> simp [doVisit, preorder, takeThroughFalse, h]
  | numN s v i => by_cases h : fn (.numN s v i) = true <;> simp [doVisit, preorder, takeThroughFalse, h]
  | strN s v => by_cases h : fn (.strN s v) = true <;> simp [doVisit, preorder, takeThroughFalse, h]
  | arrN s items =>
    by_cases h : fn (.arrN s items) = true <;>
      simp [doVisit, preorder, takeThroughFalse, h, doVisitList_spec fn items]
  | objN s props =>
    by_cases h : fn (.objN s props) = true <;>
      simp [doVisit, preorder, takeThroughFalse, h, doVisitList_spec fn props]
  | propN s ks k v? =>
    by_cases h : fn (.propN s ks k v?) = true <;>
      by_cases hk : fn (.strN ks k) = true <;>
      cases v? with
      | none => simp [doVisit, preorder, takeThroughFalse, h, hk]
      | some v =>
        simp [doVisit, preorder, takeThroughFalse, h, hk, doVisit_spec fn v]

theorem doVisitList_spec (fn : Node → Bool) (l : List Node) :
    doVisitList fn l = ((preorderList l).all fn, takeThroughFalse fn (preorderList l)) := by
  cases l with
  | nil => rfl
  | cons x xs =>
    rw [doVisitList, doVisit_spec fn x, doVisitList_spec fn xs]
    by_cases hx : (preorder x).all fn = true
    · simp [preorderList, takeThroughFalse_append, hx, takeThroughFalse_of_all fn _ hx]
    · simp [preorderList, takeThroughFalse_append, hx]

end

/-- C8 counterexample: on the document `[1, 2, 3]` with a visitor that
answers `false` exactly on the first item, `visit` calls the visitor on
`[root, item1]` only — the second and third items, although *outside* the
subtree of the node on which the visitor returned `false`, are never
visited, contradicting the claim that only the descent below that node
stops. -/
theorem C8_counterexample :
    docVisit (some docVisitArr) stopAtItem1 = [docVisitArr, visitItem1] ∧
    stopAtItem1 visitItem1 = false ∧
    visitItem2 ∈ preorder docVisitArr ∧
    visitItem2 ∉ preorder visitItem1 ∧
    visitItem2 ∉ docVisit (some docVisitArr) stopAtItem1 := by
  refine ⟨rfl, rfl, ?_, ?_, ?_⟩ <;>
    simp [docVisit, doVisit, doVisitList, preorder, preorderList, docVisitArr,
      visitItem1, visitItem2, visitItem3, stopAtItem1]

/-- C8 amended: `visit(fn)` calls `fn` on the document's nodes in
pre-order starting at the root, and stops at the first node on which `fn`
returns `false`: that node is the last one visited, and *no* later node of
the whole pre-order (neither the node's children nor any node outside its
subtree) is visited — a `false` return aborts the entire traversal, since
the continue-flag is propagated through every ancestor's child loop. -/
theorem C8_visit_stops_entirely (fn : Node → Bool) (root : Option Node) :
    docVisit root fn =
      (match root with
       | some r => takeThroughFalse fn (preorder r)
       | none => []) := by
  cases root with
  | none => rfl
  | some r => simp [docVisit, doVisit_spec fn r]

/-! Helper lemmas for the `not`-inversion invariant (C5): reduction of the
`Except` monad operations, closure properties of `RecsOK`, and one
invariant-preservation lemma per engine function. -/

theorem ok_bind {α β : Type} (a : α) (f : α → Except VErr β) :
    (Except.ok a >>= f : Except VErr β) = f a := rfl

theorem error_bind {α β : Type} (e : VErr) (f : α → Except VErr β) :
    (Except.error e >>= f : Except VErr β) = Except.error e := rfl

theorem pure_eq_ok {α : Type} (a : α) : (pure a : Except VErr α) = Except.ok a := rfl

theorem bind_ok_ex {α β : Type} {m : Except VErr α} {f : α → Except VErr β} {b : β}
    (h : (m >>= f) = .ok b) : ∃ a, m = .ok a ∧ f a = .ok b := by
  cases m with
  | error e => simp only [error_bind] at h; exact Except.noConfusion h
  | ok a => exact ⟨a, rfl, h⟩

theorem RecsOK_nil : RecsOK [] := fun r hr => absurd hr (List.not_mem_nil r)

theorem RecsOK_append {l1 l2 : List ARecord} (h1 : RecsOK l1) (h2 : RecsOK l2) :
    RecsOK (l1 ++ l2) := by
  intro r hr
  rcases List.mem_append.mp hr with h | h
  · exact h1 r h
  · exact h2 r h

theorem RecsOK_addRecs {l : List ARecord} (ms : Collector) (h : RecsOK l) :
    RecsOK (ms.addRecs l) := by
  cases ms with
  | noop => exact RecsOK_nil
  | recording fo ex => exact h

theorem RecsOK_addRec (ms : Collector) (n : Node) (s : JSchema) :
    RecsOK (ms.addRec { node := n, schema := s }) := by
  cases ms with
  | noop => exact RecsOK_nil
  | recording fo ex =>
    intro r hr
    simp only [Collector.addRec, List.mem_singleton] at hr
    subst hr
    simp [RecInv]

theorem RecsOK_flip {l : List ARecord} (h : RecsOK l) :
    RecsOK (l.map fun r =>
      { r with inverted := !r.inverted, notCrossings := r.notCrossings + 1 }) := by
  intro r hr
  simp only [List.mem_map] at hr
  obtain ⟨r0, hr0, rfl⟩ := hr
  have h0 := h r0 hr0
  simp only [RecInv] at h0 ⊢
  rcases Bool.eq_false_or_eq_true r0.inverted with hb | hb <;>
    simp [hb] at h0 ⊢ <;> omega

theorem runAllOf_inv {V : VFun} (hV : VInv V) (node : Node) (parent : Option ParentInfo) :
    ∀ subs ms vr out, runAllOf V node parent subs ms vr = .ok out → RecsOK out.2 := by
  intro subs
  induction subs with
  | nil =>
    intro ms vr out h
    simp only [runAllOf] at h
    cases h
    exact RecsOK_nil
  | cons ref rest ih =>
    intro ms vr out h
    simp only [runAllOf] at h
    obtain ⟨p, hp, h⟩ := bind_ok_ex h
    obtain ⟨q, hq, h⟩ := bind_ok_ex h
    simp only [pure_eq_ok, Except.ok.injEq] at h
    subst h
    exact RecsOK_append (hV _ _ _ _ _ _ hp) (ih _ _ _ hq)

theorem testBranch_inv {V : VFun} (hV : VInv V) (node : Node) (parent : Option ParentInfo)
    (ms : Collector) (branch : JSchema) (vr : VR) (out : VOut)
    (h : testBranch V node parent ms branch vr = .ok out) : RecsOK out.2 := by
  simp only [testBranch] at h
  obtain ⟨p, hp, h⟩ := bind_ok_ex h
  simp only [pure_eq_ok, Except.ok.injEq] at h
  subst h
  have hres := RecsOK_addRecs ms (hV _ _ _ _ _ _ hp)
  exact hres

theorem testCondition_inv {V : VFun} (hV : VInv V) (node : Node) (parent : Option ParentInfo)
    (ms : Collector) (ifS : JSchema) (thenS elseS : Option JSchema) (vr : VR) (out : VOut)
    (h : testCondition V node parent ms ifS thenS elseS vr = .ok out) : RecsOK out.2 := by
  simp only [testCondition] at h
  obtain ⟨p, hp, h⟩ := bind_ok_ex h
  have hsub : RecsOK (ms.addRecs p.2) := RecsOK_addRecs ms (hV _ _ _ _ _ _ hp)
  split at h
  · cases thenS with
    | none =>
      simp only [pure_eq_ok, Except.ok.injEq] at h
      subst h
      exact hsub
    | some t =>
      obtain ⟨q, hq, h⟩ := bind_ok_ex h
      simp only [pure_eq_ok, Except.ok.injEq] at h
      subst h
      exact RecsOK_append hsub (testBranch_inv hV _ _ _ _ _ _ hq)
  · cases elseS with
    | none =>
      simp only [pure_eq_ok, Except.ok.injEq] at h
      subst h
      exact hsub
    | some e' =>
      obtain ⟨q, hq, h⟩ := bind_ok_ex h
      simp only [pure_eq_ok, Except.ok.injEq] at h
      subst h
      exact RecsOK_append hsub (testBranch_inv hV _ _ _ _ _ _ hq)

theorem testAlternativesLoop_inv {V : VFun} (hV : VInv V) (node : Node)
    (parent : Option ParentInfo) (ms : Collector) (maxOne : Bool) :
    ∀ (alts : List SchemaRef) (matchList : List JSchema) (best : Option BestMatch),
      (∀ b, best = some b → RecsOK b.recs) →
      ∀ out, testAlternativesLoop V node parent ms maxOne alts matchList best = .ok out →
        ∀ b, out.2 = some b → RecsOK b.recs := by
  intro alts
  induction alts with
  | nil =>
    intro matchList best hbest out h b hb
    simp only [testAlternativesLoop] at h
    cases h
    exact hbest b hb
  | cons ref rest ih =>
    intro matchList best hbest out h b hb
    simp only [testAlternativesLoop] at h
    obtain ⟨p, hp, h⟩ := bind_ok_ex h
    refine ih _ _ ?_ out h b hb
    intro b' hb'
    have hsub : RecsOK p.2 := hV _ _ _ _ _ _ hp
    cases best with
    | none =>
      simp only at hb'
      cases hb'
      exact hsub
    | some b0 =>
      have h0 : RecsOK b0.recs := hbest b0 rfl
      simp only at hb'
      split at hb'
      · cases hb'
        exact RecsOK_append h0 hsub
      · split at hb'
        · cases hb'
          exact hsub
        · split at hb'
          · cases hb'
            exact RecsOK_append h0 hsub
          · cases hb'
            exact h0

theorem testAlternatives_inv {V : VFun} (hV : VInv V) (node : Node)
    (parent : Option ParentInfo) (ms : Collector) (alts : List SchemaRef)
    (maxOne : Bool) (vr : VR) (out : VOut)
    (h : testAlternatives V node parent ms alts maxOne vr = .ok out) : RecsOK out.2 := by
  simp only [testAlternatives] at h
  obtain ⟨q, hq, h⟩ := bind_ok_ex h
  have hrec := testAlternativesLoop_inv hV node parent ms maxOne alts [] none
    (by intro b hb; exact Option.noConfusion hb) q hq
  cases hqb : q.2 with
  | none =>
    simp only [hqb] at h
    cases h
    exact RecsOK_nil
  | some b =>
    simp only [hqb] at h
    cases h
    have hres := RecsOK_addRecs ms (hrec b hqb)
    exact hres

theorem validateNode_inv {V : VFun} (hV : VInv V) (node : Node)
    (parent : Option ParentInfo) (schema : SchemaCore JSchema) (vr : VR)
    (ms : Collector) (out : VOut)
    (h : validateNode V node parent schema vr ms = .ok out) : RecsOK out.2 := by
  simp only [validateNode] at h
  obtain ⟨p1, h1, h⟩ := bind_ok_ex h
  obtain ⟨vr1, recs1⟩ := p1
  obtain ⟨p2, h2, h⟩ := bind_ok_ex h
  obtain ⟨vr2, recs2⟩ := p2
  obtain ⟨p3, h3, h⟩ := bind_ok_ex h
  obtain ⟨vr3, recs3⟩ := p3
  obtain ⟨p4, h4, h⟩ := bind_ok_ex h
  obtain ⟨vr4, recs4⟩ := p4
  obtain ⟨p5, h5, h⟩ := bind_ok_ex h
  obtain ⟨vr5, recs5⟩ := p5
  simp only [pure_eq_ok, Except.ok.injEq] at h
  subst h
  have r1 : RecsOK recs1 := by
    simp only [allOfStep] at h1
    split at h1
    · exact runAllOf_inv hV node parent _ ms _ _ h1
    · simp only [pure_eq_ok, Except.ok.injEq] at h1
      cases h1
      exact RecsOK_nil
  have r2 : RecsOK recs2 := by
    simp only [notStep] at h2
    split at h2
    · obtain ⟨psub, hsub, h2'⟩ := bind_ok_ex h2
      simp only [pure_eq_ok, Except.ok.injEq] at h2'
      cases h2'
      exact RecsOK_addRecs ms (RecsOK_flip (hV _ _ _ _ _ _ hsub))
    · simp only [pure_eq_ok, Except.ok.injEq] at h2
      cases h2
      exact RecsOK_nil
  have r3 : RecsOK recs3 := by
    simp only [anyOfStep] at h3
    split at h3
    · exact testAlternatives_inv hV node parent ms _ false _ _ h3
    · simp only [pure_eq_ok, Except.ok.injEq] at h3
      cases h3
      exact RecsOK_nil
  have r4 : RecsOK recs4 := by
    simp only [anyOfStep] at h4
    split at h4
    · exact testAlternatives_inv hV node parent ms _ true _ _ h4
    · simp only [pure_eq_ok, Except.ok.injEq] at h4
      cases h4
      exact RecsOK_nil
  have r5 : RecsOK recs5 := by
    simp only [ifStep] at h5
    split at h5
    · exact testCondition_inv hV node parent ms _ _ _ _ _ h5
    · simp only [pure_eq_ok, Except.ok.injEq] at h5
      cases h5
      exact RecsOK_nil
  exact RecsOK_append (RecsOK_append (RecsOK_append (RecsOK_append r1 r2) r3) r4) r5

theorem tupleLoop_inv {V : VFun} (hV : VInv V) (aspan : Span) (items : List Node)
    (total : Nat) :
    ∀ subs index ms vr out, tupleLoop V aspan items total subs index ms vr = .ok out →
      RecsOK out.2 := by
  intro subs
  induction subs with
  | nil =>
    intro index ms vr out h
    simp only [tupleLoop] at h
    cases h
    exact RecsOK_nil
  | cons ref rest ih =>
    intro index ms vr out h
    simp only [tupleLoop] at h
    split at h
    · obtain ⟨p, hp, h⟩ := bind_ok_ex h
      obtain ⟨q, hq, h⟩ := bind_ok_ex h
      simp only [pure_eq_ok, Except.ok.injEq] at h
      subst h
      exact RecsOK_append (hV _ _ _ _ _ _ hp) (ih _ _ _ _ hq)
    · exact ih _ _ _ _ h

theorem itemsLoop_inv {V : VFun} (hV : VInv V) (aspan : Span) (itemSchema : JSchema) :
    ∀ items ms vr out, itemsLoop V aspan itemSchema items ms vr = .ok out →
      RecsOK out.2 := by
  intro items
  induction items with
  | nil =>
    intro ms vr out h
    simp only [itemsLoop] at h
    cases h
    exact RecsOK_nil
  | cons item rest ih =>
    intro ms vr out h
    simp only [itemsLoop] at h
    obtain ⟨p, hp, h⟩ := bind_ok_ex h
    obtain ⟨q, hq, h⟩ := bind_ok_ex h
    simp only [pure_eq_ok, Except.ok.injEq] at h
    subst h
    exact RecsOK_append (hV _ _ _ _ _ _ hp) (ih _ _ _ hq)

theorem itemsStep_inv {V : VFun} (hV : VInv V) (nspan : Span) (items : List Node)
    (schema : SchemaCore JSchema) (ms : Collector) (vr : VR) (out : VOut)
    (h : itemsStep V nspan items schema ms vr = .ok out) : RecsOK out.2 := by
  simp only [itemsStep] at h
  split at h
  · obtain ⟨p, hp, h⟩ := bind_ok_ex h
    have hrec1 := tupleLoop_inv hV nspan items _ _ _ _ _ _ hp
    split at h
    · split at h
      · obtain ⟨q, hq, h⟩ := bind_ok_ex h
        simp only [pure_eq_ok, Except.ok.injEq] at h
        subst h
        exact RecsOK_append hrec1 (itemsLoop_inv hV _ _ _ _ _ _ hq)
      · simp only [pure_eq_ok, Except.ok.injEq] at h
        subst h
        exact hrec1
      · simp only [pure_eq_ok, Except.ok.injEq] at h
        subst h
        exact hrec1
    · simp only [pure_eq_ok, Except.ok.injEq] at h
      subst h
      exact hrec1
  · exact itemsLoop_inv hV _ _ _ _ _ _ h
  · simp only [pure_eq_ok, Except.ok.injEq] at h
    subst h
    exact RecsOK_nil

theorem validateArrayNode_inv {V : VFun} (hV : VInv V) (nspan : Span)
    (items : List Node) (schema : SchemaCore JSchema) (vr : VR) (ms : Collector)
    (out : VOut) (h : validateArrayNode V nspan items schema vr ms = .ok out) :
    RecsOK out.2 := by
  simp only [validateArrayNode] at h
  obtain ⟨p, hp, h⟩ := bind_ok_ex h
  obtain ⟨vr1, recs1⟩ := p
  obtain ⟨q, hq, h⟩ := bind_ok_ex h
  simp only [pure_eq_ok, Except.ok.injEq] at h
  subst h
  show RecsOK recs1
  exact itemsStep_inv hV _ _ _ _ _ _ hp

theorem validatePropAgainst_inv {V : VFun} (hV : VInv V) (errMsg : Option String)
    (name : String) (pSchema : SchemaRef) (sk : SeenKeys) (ms : Collector) (vr : VR)
    (out : VR × List ARecord) (h : validatePropAgainst V errMsg name pSchema sk ms vr = .ok out) :
    RecsOK out.2 := by
  simp only [validatePropAgainst] at h
  split at h
  · split at h
    · simp only [pure_eq_ok, Except.ok.injEq] at h
      subst h
      exact RecsOK_nil
    · simp only [pure_eq_ok, Except.ok.injEq] at h
      subst h
      exact RecsOK_nil
    · obtain ⟨p, hp, h⟩ := bind_ok_ex h
      simp only [pure_eq_ok, Except.ok.injEq] at h
      subst h
      have hres := hV _ _ _ _ _ _ hp
      exact hres
  · simp only [pure_eq_ok, Except.ok.injEq] at h
    subst h
    exact RecsOK_nil

theorem propertiesLoop_inv {V : VFun} (hV : VInv V) (errMsg : Option String) :
    ∀ ps sk un ms vr out, propertiesLoop V errMsg ps sk un ms vr = .ok out →
      RecsOK out.2.2 := by
  intro ps
  induction ps with
  | nil =>
    intro sk un ms vr out h
    simp only [propertiesLoop] at h
    cases h
    exact RecsOK_nil
  | cons hd rest ih =>
    intro sk un ms vr out h
    obtain ⟨name, pSchema⟩ := hd
    simp only [propertiesLoop] at h
    obtain ⟨p, hp, h⟩ := bind_ok_ex h
    obtain ⟨q, hq, h⟩ := bind_ok_ex h
    simp only [pure_eq_ok, Except.ok.injEq] at h
    subst h
    exact RecsOK_append (validatePropAgainst_inv hV _ _ _ _ _ _ _ hp) (ih _ _ _ _ _ hq)

theorem patternPropsInner_inv {V : VFun} (hV : VInv V) (errMsg : Option String)
    (test : String → Bool) (pSchema : SchemaRef) :
    ∀ snap sk un ms vr out, patternPropsInner V errMsg test pSchema snap sk un ms vr = .ok out →
      RecsOK out.2.2 := by
  intro snap
  induction snap with
  | nil =>
    intro sk un ms vr out h
    simp only [patternPropsInner] at h
    cases h
    exact RecsOK_nil
  | cons name rest ih =>
    intro sk un ms vr out h
    simp only [patternPropsInner] at h
    split at h
    · obtain ⟨p, hp, h⟩ := bind_ok_ex h
      obtain ⟨q, hq, h⟩ := bind_ok_ex h
      simp only [pure_eq_ok, Except.ok.injEq] at h
      subst h
      exact RecsOK_append (validatePropAgainst_inv hV _ _ _ _ _ _ _ hp) (ih _ _ _ _ _ hq)
    · exact ih _ _ _ _ _ h

theorem patternPropsLoop_inv {V : VFun} (hV : VInv V) (ext : Externals)
    (errMsg : Option String) :
    ∀ pps sk un ms vr out, patternPropsLoop V ext errMsg pps sk un ms vr = .ok out →
      RecsOK out.2.2 := by
  intro pps
  induction pps with
  | nil =>
    intro sk un ms vr out h
    simp only [patternPropsLoop] at h
    cases h
    exact RecsOK_nil
  | cons hd rest ih =>
    intro sk un ms vr out h
    obtain ⟨pat, pSchema⟩ := hd
    simp only [patternPropsLoop] at h
    split at h
    · exact Except.noConfusion h
    · obtain ⟨p, hp, h⟩ := bind_ok_ex h
      obtain ⟨q, hq, h⟩ := bind_ok_ex h
      simp only [pure_eq_ok, Except.ok.injEq] at h
      subst h
      exact RecsOK_append (patternPropsInner_inv hV _ _ _ _ _ _ _ _ _ hp)
        (ih _ _ _ _ _ hq)

theorem addPropOne_inv {V : VFun} (hV : VInv V) (s : JSchema) (sk : SeenKeys)
    (name : String) (ms : Collector) (vr : VR) (out : VOut)
    (h : addPropOne V s sk name ms vr = .ok out) : RecsOK out.2 := by
  simp only [addPropOne] at h
  split at h
  · obtain ⟨p, hp, h⟩ := bind_ok_ex h
    simp only [pure_eq_ok, Except.ok.injEq] at h
    subst h
    have hres := hV _ _ _ _ _ _ hp
    exact hres
  · simp only [pure_eq_ok, Except.ok.injEq] at h
    subst h
    exact RecsOK_nil

theorem addPropsLoop_inv {V : VFun} (hV : VInv V) (s : JSchema) (sk : SeenKeys) :
    ∀ un ms vr out, addPropsLoop V s sk un ms vr = .ok out → RecsOK out.2 := by
  intro un
  induction un with
  | nil =>
    intro ms vr out h
    simp only [addPropsLoop] at h
    cases h
    exact RecsOK_nil
  | cons name rest ih =>
    intro ms vr out h
    simp only [addPropsLoop] at h
    obtain ⟨p, hp, h⟩ := bind_ok_ex h
    obtain ⟨q, hq, h⟩ := bind_ok_ex h
    simp only [pure_eq_ok, Except.ok.injEq] at h
    subst h
    exact RecsOK_append (addPropOne_inv hV _ _ _ _ _ _ hp) (ih _ _ _ hq)

theorem depOne_inv {V : VFun} (hV : VInv V) (node : Node) (nspan : Span)
    (parent : Option ParentInfo) (sk : SeenKeys) (key : String)
    (dep : List String ⊕ SchemaRef) (ms : Collector) (vr : VR) (out : VOut)
    (h : depOne V node nspan parent sk key dep ms vr = .ok out) : RecsOK out.2 := by
  simp only [depOne] at h
  split at h
  · split at h
    · simp only [pure_eq_ok, Except.ok.injEq] at h
      subst h
      exact RecsOK_nil
    · obtain ⟨p, hp, h⟩ := bind_ok_ex h
      simp only [pure_eq_ok, Except.ok.injEq] at h
      subst h
      have hres := hV _ _ _ _ _ _ hp
      exact hres
  · simp only [pure_eq_ok, Except.ok.injEq] at h
    subst h
    exact RecsOK_nil

theorem dependenciesLoop_inv {V : VFun} (hV : VInv V) (node : Node) (nspan : Span)
    (parent : Option ParentInfo) (sk : SeenKeys) :
    ∀ deps ms vr out, dependenciesLoop V node nspan parent sk deps ms vr = .ok out →
      RecsOK out.2 := by
  intro deps
  induction deps with
  | nil =>
    intro ms vr out h
    simp only [dependenciesLoop] at h
    cases h
    exact RecsOK_nil
  | cons hd rest ih =>
    intro ms vr out h
    obtain ⟨key, dep⟩ := hd
    simp only [dependenciesLoop] at h
    obtain ⟨p, hp, h⟩ := bind_ok_ex h
    obtain ⟨q, hq, h⟩ := bind_ok_ex h
    simp only [pure_eq_ok, Except.ok.injEq] at h
    subst h
    exact RecsOK_append (depOne_inv hV _ _ _ _ _ _ _ _ _ hp) (ih _ _ _ hq)

theorem validateObjectNode_inv {V : VFun} (hV : VInv V) (ext : Externals)
    (node : Node) (nspan : Span) (props : List Node) (parent : Option ParentInfo)
    (schema : SchemaCore JSchema) (vr : VR) (ms : Collector) (out : VOut)
    (h : validateObjectNode V ext node nspan props parent schema vr ms = .ok out) :
    RecsOK out.2 := by
  simp only [validateObjectNode] at h
  obtain ⟨sku, hsku, h⟩ := bind_ok_ex h
  obtain ⟨sk, un⟩ := sku
  obtain ⟨p1, h1, h⟩ := bind_ok_ex h
  obtain ⟨vr1, un1, recs1⟩ := p1
  obtain ⟨p2, h2, h⟩ := bind_ok_ex h
  obtain ⟨vr2, un2, recs2⟩ := p2
  obtain ⟨p3, h3, h⟩ := bind_ok_ex h
  obtain ⟨vr3, recs3⟩ := p3
  obtain ⟨p4, h4, h⟩ := bind_ok_ex h
  obtain ⟨vr4, recs4⟩ := p4
  obtain ⟨vrf, hf, h⟩ := bind_ok_ex h
  simp only [pure_eq_ok, Except.ok.injEq] at h
  subst h
  have r1 : RecsOK recs1 := by
    simp only [propertiesStep] at h1
    split at h1
    · exact propertiesLoop_inv hV _ _ _ _ _ _ _ h1
    · simp only [pure_eq_ok, Except.ok.injEq] at h1
      cases h1
      exact RecsOK_nil
  have r2 : RecsOK recs2 := by
    simp only [patternPropertiesStep] at h2
    split at h2
    · exact patternPropsLoop_inv hV _ _ _ _ _ _ _ _ h2
    · simp only [pure_eq_ok, Except.ok.injEq] at h2
      cases h2
      exact RecsOK_nil
  have r3 : RecsOK recs3 := by
    simp only [additionalPropertiesStep] at h3
    split at h3
    · exact addPropsLoop_inv hV _ _ _ _ _ _ h3
    · simp only [pure_eq_ok, Except.ok.injEq] at h3
      cases h3
      exact RecsOK_nil
    · simp only [pure_eq_ok, Except.ok.injEq] at h3
      cases h3
      exact RecsOK_nil
  have r4 : RecsOK recs4 := by
    simp only [dependenciesStep] at h4
    split at h4
    · exact dependenciesLoop_inv hV _ _ _ _ _ _ _ _ h4
    · simp only [pure_eq_ok, Except.ok.injEq] at h4
      cases h4
      exact RecsOK_nil
  exact RecsOK_append (RecsOK_append (RecsOK_append r1 r2) r3) r4

theorem validate_inv (ext : Externals) : ∀ fuel, VInv (validate ext fuel) := by
  intro fuel
  induction fuel with
  | zero =>
    intro n p s ms vr out h
    cases n with
    | none =>
      simp only [validate] at h
      cases h
      exact RecsOK_nil
    | some node =>
      simp only [validate] at h
      split at h
      · cases h
        exact RecsOK_nil
      · exact Except.noConfusion h
  | succ f ih =>
    intro n p s ms vr out h
    cases n with
    | none =>
      simp only [validate] at h
      cases h
      exact RecsOK_nil
    | some node =>
      simp only [validate] at h
      split at h
      · cases h
        exact RecsOK_nil
      · cases node with
        | propN sp ksp k v? =>
          exact ih _ _ _ _ _ _ h
        | nullN sp =>
          obtain ⟨p1, h1, h⟩ := bind_ok_ex h
          obtain ⟨vr1, recs1⟩ := p1
          obtain ⟨p2, h2, h⟩ := bind_ok_ex h
          obtain ⟨vr2, recs2⟩ := p2
          simp only [pure_eq_ok, Except.ok.injEq] at h
          subst h
          simp only [pure_eq_ok, Except.ok.injEq] at h1
          cases h1
          refine RecsOK_append (RecsOK_append RecsOK_nil (validateNode_inv ih _ _ _ _ _ _ h2)) ?_
          exact RecsOK_addRec ms _ _
        | boolN sp b =>
          obtain ⟨p1, h1, h⟩ := bind_ok_ex h
          obtain ⟨vr1, recs1⟩ := p1
          obtain ⟨p2, h2, h⟩ := bind_ok_ex h
          obtain ⟨vr2, recs2⟩ := p2
          simp only [pure_eq_ok, Except.ok.injEq] at h
          subst h
          simp only [pure_eq_ok, Except.ok.injEq] at h1
          cases h1
          refine RecsOK_append (RecsOK_append RecsOK_nil (validateNode_inv ih _ _ _ _ _ _ h2)) ?_
          exact RecsOK_addRec ms _ _
        | numN sp v isInt =>
          obtain ⟨p1, h1, h⟩ := bind_ok_ex h
          obtain ⟨vr1, recs1⟩ := p1
          obtain ⟨p2, h2, h⟩ := bind_ok_ex h
          obtain ⟨vr2, recs2⟩ := p2
          simp only [pure_eq_ok, Except.ok.injEq] at h
          subst h
          simp only [pure_eq_ok, Except.ok.injEq] at h1
          cases h1
          refine RecsOK_append (RecsOK_append RecsOK_nil (validateNode_inv ih _ _ _ _ _ _ h2)) ?_
          exact RecsOK_addRec ms _ _
        | strN sp v =>
          obtain ⟨vs, hvs, h⟩ := bind_ok_ex h
          obtain ⟨p1, h1, h⟩ := bind_ok_ex h
          obtain ⟨p2, h2, h⟩ := bind_ok_ex h
          obtain ⟨vr2, recs2⟩ := p2
          simp only [pure_eq_ok, Except.ok.injEq] at h
          subst h
          simp only [pure_eq_ok, Except.ok.injEq] at h1
          subst h1
          refine RecsOK_append (RecsOK_append RecsOK_nil (validateNode_inv ih _ _ _ _ _ _ h2)) ?_
          exact RecsOK_addRec ms _ _
        | arrN sp items =>
          obtain ⟨p1, h1, h⟩ := bind_ok_ex h
          obtain ⟨vr1, recs1⟩ := p1
          obtain ⟨p2, h2, h⟩ := bind_ok_ex h
          obtain ⟨vr2, recs2⟩ := p2
          simp only [pure_eq_ok, Except.ok.injEq] at h
          subst h
          refine RecsOK_append (RecsOK_append (validateArrayNode_inv ih _ _ _ _ _ _ h1)
            (validateNode_inv ih _ _ _ _ _ _ h2)) ?_
          exact RecsOK_addRec ms _ _
        | objN sp props =>
          obtain ⟨p1, h1, h⟩ := bind_ok_ex h
          obtain ⟨vr1, recs1⟩ := p1
          obtain ⟨p2, h2, h⟩ := bind_ok_ex h
          obtain ⟨vr2, recs2⟩ := p2
          simp only [pure_eq_ok, Except.ok.injEq] at h
          subst h
          refine RecsOK_append (RecsOK_append (validateObjectNode_inv ih ext _ _ _ _ _ _ _ _ h1)
            (validateNode_inv ih _ _ _ _ _ _ h2)) ?_
          exact RecsOK_addRec ms _ _

/-- C5: for every record in the list returned by
`getMatchingSchemas(schema, focusOffset, exclude)`, `inverted` is `true`
iff the number of `not` boundaries the record crossed between the root
schema and its own schema is odd.  (`notCrossings` is the ghost counter
incremented at exactly the one site that flips `inverted`, the `not`
handler, so it counts those crossings; records are created with
`inverted = false`, `notCrossings = 0`.) -/
theorem C5_not_inversion_parity (ext : Externals) (fuel : Nat) (root : Option Node)
    (schema : Option JSchema) (focusOffset : Int) (exclude : Option Node)
    (l : List ARecord)
    (h : getMatchingSchemas ext fuel root schema focusOffset exclude = .ok l) :
    ∀ r ∈ l, (r.inverted = true ↔ r.notCrossings % 2 = 1) := by
  cases root with
  | none =>
    simp only [getMatchingSchemas] at h
    cases h
    intro r hr
    exact absurd hr (List.not_mem_nil r)
  | some rt =>
    cases schema with
    | none =>
      simp only [getMatchingSchemas] at h
      cases h
      intro r hr
      exact absurd hr (List.not_mem_nil r)
    | some s =>
      simp only [getMatchingSchemas] at h
      obtain ⟨p, hp, h⟩ := bind_ok_ex h
      simp only [pure_eq_ok, Except.ok.injEq] at h
      subst h
      exact validate_inv ext fuel _ _ _ _ _ _ hp

/-- Witness for C5 at a concrete run: `5` against `{not: {type: "string"}}`
yields one record flipped once (inverted, one crossing) and one outer
record (not inverted, zero crossings); the theorem is applied to the
flipped one. -/
theorem C5_not_inversion_parity_witness :
    (({ node := docFive, schema := .mk { type := some (.inl "string") },
        inverted := true, notCrossings := 1 } : ARecord).inverted = true ↔
      ({ node := docFive, schema := .mk { type := some (.inl "string") },
         inverted := true, notCrossings := 1 } : ARecord).notCrossings % 2 = 1) :=
  C5_not_inversion_parity trivialExternals 10 (some docFive) (some schemaNotString)
    (-1) none
    [ { node := docFive, schema := .mk { type := some (.inl "string") },
        inverted := true, notCrossings := 1 },
      { node := docFive, schema := schemaNotString } ] (by rfl) _ (by simp)

end JsonParser
